import Mathlib

/-! ModuleGraph (lib/ModuleGraph.js)

A shallow embedding of the `ModuleGraph` class and of `ModuleGraphConnection`.

JavaScript objects have identity and are mutated in place, so the embedding
keeps an explicit store:

* a `ModuleGraphConnection` object is an index into `ModuleGraph.heap`
  (`new ModuleGraphConnection(..)` appends to the heap, the new index is the
  object's identity, `connection.module = m` overwrites the cell);
* `Map` is an insertion-ordered association list, `Set` an insertion-ordered
  list without repetition;
* the `Set` objects stored in `_moduleMap` are reachable only through that
  map, so they are embedded by value: `set.add(c)` / `set.delete(c)` on the
  set stored under key `k` rewrites the entry of `k`;
* a method returns the graph after the call together with its completion:
  a returned value or a thrown exception. A method that throws half-way keeps
  the mutations made before the throw.
-/

namespace ModuleGraphJs

/-- Identity of a `Module` object. -/
abbrev Module := Nat

/-- Identity of a `Dependency` object. -/
abbrev Dependency := Nat

/-- Identity of a `ModuleGraphConnection` object: its index in the heap. -/
abbrev ConnRef := Nat

/-- Identity of a metadata object: its index in the metadata heap. -/
abbrev MetaRef := Nat

/-- Fields of `ModuleGraphConnection`. `none` stands for `null` in
`originModule` and `dependency` and for `undefined` in `explanation`. -/
structure ModuleGraphConnection where
  originModule : Option Module
  dependency : Option Dependency
  resolvedModule : Module
  module : Module
  explanation : Option String
  deriving DecidableEq, Repr

/-- The constructor of `ModuleGraphConnection`: `resolvedModule` and `module`
both start as the `module` argument. -/
def ModuleGraphConnection.new (originModule : Option Module) (dependency : Option Dependency)
    (module : Module) (explanation : Option String) : ModuleGraphConnection :=
  { originModule := originModule
    dependency := dependency
    resolvedModule := module
    module := module
    explanation := explanation }

/-- Exceptions. The code raises nothing itself; the only exception it can
produce is the `TypeError` of reading a property of `undefined`. The other two
are the named errors of the specification, which no path of the code throws. -/
inductive JsError where
  | typeError
  | duplicateReferenceError
  | unknownReferenceError
  deriving DecidableEq, Repr

/-- How a method call ends. -/
inductive Completion (α : Type) where
  | returns (value : α)
  | throws (error : JsError)
  deriving DecidableEq, Repr

/-- The call ended by returning. -/
def Completion.isReturn {α : Type} : Completion α → Bool
  | .returns _ => true
  | .throws _ => false

/-! ## `Map` and `Set` -/

/-- Lookup `Map.prototype.get`: `none` is `undefined`. -/
def mapGet {κ ν : Type} [DecidableEq κ] : List (κ × ν) → κ → Option ν
  | [], _ => none
  | (k', v) :: rest, k => if k' = k then some v else mapGet rest k

/-- Update `Map.prototype.set`: an existing key keeps its position and gets the new
value, a new key is appended. -/
def mapSet {κ ν : Type} [DecidableEq κ] : List (κ × ν) → κ → ν → List (κ × ν)
  | [], k, v => [(k, v)]
  | (k', v') :: rest, k, v =>
    if k' = k then (k, v) :: rest else (k', v') :: mapSet rest k v

/-- Insertion `Set.prototype.add`: a member is not added again. -/
def setAdd (s : List ConnRef) (c : ConnRef) : List ConnRef :=
  if c ∈ s then s else s ++ [c]

/-- Removal `Set.prototype.delete`. -/
def setDelete (s : List ConnRef) (c : ConnRef) : List ConnRef :=
  s.filter (fun x => x ≠ c)

/-! ## The graph -/

/-- Keys of `_metaMap` (`any` in the source): a module, a dependency, or any
other object, each compared by identity. -/
inductive Thing where
  | module (m : Module)
  | dependency (d : Dependency)
  | other (n : Nat)
  deriving DecidableEq, Repr

/-- An object created by `Object.create(null)`: its own fields. -/
abbrev MetaRecord := List (String × Nat)

/-- State of a `ModuleGraph` instance together with the objects it created. -/
structure ModuleGraph where
  heap : List ModuleGraphConnection
  _dependencyMap : List (Dependency × ConnRef)
  _moduleMap : List (Module × List ConnRef)
  _metaMap : List (Thing × MetaRef)
  metaHeap : List MetaRecord
  deriving DecidableEq, Repr

namespace ModuleGraph

/-- The constructor: three empty maps, no object allocated. -/
def new : ModuleGraph :=
  { heap := [], _dependencyMap := [], _moduleMap := [], _metaMap := [], metaHeap := [] }

/-- Reads the connection object behind a reference. References stored in the
index come from allocation, so the fallback is not read on a graph whose
references are allocated (`WF`). -/
def deref (g : ModuleGraph) (c : ConnRef) : ModuleGraphConnection :=
  g.heap.getD c (ModuleGraphConnection.new none none 0 none)

/-- Method `_getModuleSet(module)`: the set stored for `module`, created empty and
stored when there is none. -/
def _getModuleSet (g : ModuleGraph) (module : Module) : ModuleGraph × List ConnRef :=
  match mapGet g._moduleMap module with
  | some connections => (g, connections)
  | none => ({ g with _moduleMap := mapSet g._moduleMap module [] }, [])

/-- Method `setResolvedModule(originModule, dependency, module)`. -/
def setResolvedModule (g : ModuleGraph) (originModule : Module) (dependency : Dependency)
    (module : Module) : ModuleGraph × Completion Unit :=
  let connection : ConnRef := g.heap.length
  let g1 := { g with
    heap := g.heap ++ [ModuleGraphConnection.new (some originModule) (some dependency) module none] }
  let g2 := { g1 with _dependencyMap := mapSet g1._dependencyMap dependency connection }
  let r := g2._getModuleSet module
  ({ r.1 with _moduleMap := mapSet r.1._moduleMap module (setAdd r.2 connection) }, .returns ())

/-- Method `updateModule(dependency, module)`. Each `none` branch is a property read
on `undefined`, which throws a `TypeError` at that point of the body. -/
def updateModule (g : ModuleGraph) (dependency : Dependency) (module : Module) :
    ModuleGraph × Completion Unit :=
  match mapGet g._dependencyMap dependency with
  | none => (g, .throws .typeError)
  | some connection =>
    if (g.deref connection).module = module then (g, .returns ())
    else
      match mapGet g._moduleMap (g.deref connection).module with
      | none => (g, .throws .typeError)
      | some oldSet =>
        let g1 := { g with
          _moduleMap := mapSet g._moduleMap (g.deref connection).module (setDelete oldSet connection) }
        let g2 := { g1 with
          heap := g1.heap.set connection { g1.deref connection with module := module } }
        match mapGet g2._moduleMap module with
        | none => (g2, .throws .typeError)
        | some newSet =>
          ({ g2 with _moduleMap := mapSet g2._moduleMap module (setAdd newSet connection) },
            .returns ())

/-- Method `addExtraReason(module, explanation)`. -/
def addExtraReason (g : ModuleGraph) (module : Module) (explanation : String) :
    ModuleGraph × Completion Unit :=
  let r := g._getModuleSet module
  let connection : ConnRef := r.1.heap.length
  let g1 := { r.1 with
    heap := r.1.heap ++ [ModuleGraphConnection.new none none module (some explanation)] }
  ({ g1 with _moduleMap := mapSet g1._moduleMap module (setAdd r.2 connection) }, .returns ())

/-- Method `getResolvedModule(dependency)`: `none` is `null`. -/
def getResolvedModule (g : ModuleGraph) (dependency : Dependency) : Option Module :=
  match mapGet g._dependencyMap dependency with
  | some connection => some (g.deref connection).resolvedModule
  | none => none

/-- Method `getModule(dependency)`: `none` is `null`. -/
def getModule (g : ModuleGraph) (dependency : Dependency) : Option Module :=
  match mapGet g._dependencyMap dependency with
  | some connection => some (g.deref connection).resolvedModule
  | none => none

/-- Method `getReasons(module)`: the graph after the call and the returned array. -/
def getReasons (g : ModuleGraph) (module : Module) : ModuleGraph × List ConnRef :=
  g._getModuleSet module

/-- Method `getMeta(thing)`: the graph after the call and the returned object. -/
def getMeta (g : ModuleGraph) (thing : Thing) : ModuleGraph × MetaRef :=
  match mapGet g._metaMap thing with
  | some meta => (g, meta)
  | none =>
    ({ g with metaHeap := g.metaHeap ++ [[]], _metaMap := mapSet g._metaMap thing g.metaHeap.length },
      g.metaHeap.length)

/-- The reverse set the index holds for `module`, empty when there is no
entry: what `getReasons(module)` returns, read without calling it. -/
def reasons (g : ModuleGraph) (module : Module) : List ConnRef :=
  (mapGet g._moduleMap module).getD []

/-- Every connection reference held by the forward map or by a reverse set
is an allocated object. -/
def WF (g : ModuleGraph) : Prop :=
  (∀ e ∈ g._dependencyMap, e.2 < g.heap.length) ∧
  (∀ e ∈ g._moduleMap, ∀ c ∈ e.2, c < g.heap.length)

instance (g : ModuleGraph) : Decidable g.WF := by
  unfold WF; infer_instance

/-- Invariant R1: every connection created so far is a member of the reverse
set of its current target and of the reverse set of no other module. -/
def R1 (g : ModuleGraph) : Prop :=
  ∀ c ∈ List.range g.heap.length,
    c ∈ g.reasons (g.deref c).module ∧
    ∀ m ∈ g._moduleMap.map Prod.fst, c ∈ g.reasons m → m = (g.deref c).module

instance (g : ModuleGraph) : Decidable g.R1 := by
  unfold R1; infer_instance

/-- Property P2 as the specification words it: a connection created so far
is in `getReasons(m)` exactly when its current target is `m`. -/
def P2 (g : ModuleGraph) : Prop :=
  ∀ c, c < g.heap.length → ∀ m, c ∈ (g.getReasons m).2 ↔ (g.deref c).module = m

/-- A call of one of the public methods. -/
inductive Call where
  | setResolvedModule (originModule : Module) (dependency : Dependency) (module : Module)
  | updateModule (dependency : Dependency) (module : Module)
  | addExtraReason (module : Module) (explanation : String)
  | getResolvedModule (dependency : Dependency)
  | getModule (dependency : Dependency)
  | getReasons (module : Module)
  | getMeta (thing : Thing)
  deriving DecidableEq, Repr

/-- The graph after a call, and whether the call returned (`true`) or threw. -/
def call (g : ModuleGraph) : Call → ModuleGraph × Bool
  | .setResolvedModule o d m => ((g.setResolvedModule o d m).1, (g.setResolvedModule o d m).2.isReturn)
  | .updateModule d m => ((g.updateModule d m).1, (g.updateModule d m).2.isReturn)
  | .addExtraReason m e => ((g.addExtraReason m e).1, (g.addExtraReason m e).2.isReturn)
  | .getResolvedModule _ => (g, true)
  | .getModule _ => (g, true)
  | .getReasons m => ((g.getReasons m).1, true)
  | .getMeta k => ((g.getMeta k).1, true)

/-- The graph after a sequence of calls made one after the other; a call that
throws does not stop the sequence (the caller may catch the exception). -/
def callAll (g : ModuleGraph) : List Call → ModuleGraph
  | [] => g
  | k :: ks => callAll (g.call k).1 ks

/-- Every call of the sequence returns when the calls are made one after
the other from `g`. -/
def allReturn (g : ModuleGraph) : List Call → Bool
  | [] => true
  | k :: ks => (g.call k).2 && allReturn (g.call k).1 ks

/-- Caller-side property write `meta[field] = value` on an object returned
by `getMeta`: the class has no `setMeta`, callers mutate the record. -/
def metaWrite (g : ModuleGraph) (meta : MetaRef) (field : String) (value : Nat) : ModuleGraph :=
  { g with metaHeap := g.metaHeap.set meta (mapSet (g.metaHeap.getD meta []) field value) }

/-- Caller-side property read `meta[field]`: `none` is `undefined`. -/
def metaRead (g : ModuleGraph) (meta : MetaRef) (field : String) : Option Nat :=
  mapGet (g.metaHeap.getD meta []) field

/-- Metadata objects held by `_metaMap` are allocated, and two keys never
hold the same object. -/
def MetaWF (g : ModuleGraph) : Prop :=
  (∀ e ∈ g._metaMap, e.2 < g.metaHeap.length) ∧
  (∀ e₁ ∈ g._metaMap, ∀ e₂ ∈ g._metaMap, e₁.2 = e₂.2 → e₁.1 = e₂.1)

instance (g : ModuleGraph) : Decidable g.MetaWF := by
  unfold MetaWF; infer_instance

/-- The contract of both getters in the words of the specification: the
`resolvedModule` field of the connection of the reference, or no value when
the reference has no connection. -/
def resolvedModuleOf (g : ModuleGraph) (dependency : Dependency) : Option Module :=
  (mapGet g._dependencyMap dependency).map (fun c => (g.deref c).resolvedModule)

/-- Every member of a reverse set is an allocated connection whose current
target is the module the set is stored for. -/
def TargetsAgree (g : ModuleGraph) : Prop :=
  ∀ m ∈ g._moduleMap.map Prod.fst, ∀ c ∈ g.reasons m,
    c < g.heap.length ∧ (g.deref c).module = m

instance (g : ModuleGraph) : Decidable g.TargetsAgree := by
  unfold TargetsAgree; infer_instance

/-- The connection in the forward map under a reference has that reference
as its `dependency`. -/
def ForwardAgree (g : ModuleGraph) : Prop :=
  ∀ e ∈ g._dependencyMap, (g.deref e.2).dependency = some e.1

instance (g : ModuleGraph) : Decidable g.ForwardAgree := by
  unfold ForwardAgree; infer_instance

/-- No `setResolvedModule` call of the sequence is made for a reference that
has a connection at the time of the call. -/
def freshReferences (g : ModuleGraph) : List Call → Bool
  | [] => true
  | .setResolvedModule o d m :: ks =>
    (mapGet g._dependencyMap d).isNone &&
      freshReferences (g.call (.setResolvedModule o d m)).1 ks
  | .updateModule d m :: ks => freshReferences (g.call (.updateModule d m)).1 ks
  | .addExtraReason m e :: ks => freshReferences (g.call (.addExtraReason m e)).1 ks
  | .getResolvedModule d :: ks => freshReferences (g.call (.getResolvedModule d)).1 ks
  | .getModule d :: ks => freshReferences (g.call (.getModule d)).1 ks
  | .getReasons m :: ks => freshReferences (g.call (.getReasons m)).1 ks
  | .getMeta k :: ks => freshReferences (g.call (.getMeta k)).1 ks

/-- The connection is held by the index: it is a value of the forward map or
a member of a reverse set. -/
def held (g : ModuleGraph) (c : ConnRef) : Prop :=
  (∃ e ∈ g._dependencyMap, e.2 = c) ∨ (∃ e ∈ g._moduleMap, c ∈ e.2)

instance (g : ModuleGraph) (c : ConnRef) : Decidable (g.held c) := by
  unfold held; infer_instance

/-- Number of members of all reverse sets together. -/
def totalReasons (g : ModuleGraph) : Nat :=
  (g._moduleMap.map (fun e => e.2.length)).sum

/-- No reverse set lists a connection twice (a `Set` holds a value once). -/
def NodupSets (g : ModuleGraph) : Prop :=
  ∀ e ∈ g._moduleMap, e.2.Nodup

instance (g : ModuleGraph) : Decidable g.NodupSets := by
  unfold NodupSets; infer_instance

end ModuleGraph

/-! ## Facts about `Map` and `Set` -/

section MapSet

variable {κ ν : Type} [DecidableEq κ]

theorem mapGet_mapSet_self (l : List (κ × ν)) (k : κ) (v : ν) :
    mapGet (mapSet l k v) k = some v := by
  induction l with
  | nil => simp [mapSet, mapGet]
  | cons e rest ih =>
    obtain ⟨k', v'⟩ := e
    by_cases h : k' = k
    · simp [mapSet, mapGet, h]
    · simp [mapSet, mapGet, h, ih]

theorem mapGet_mapSet_ne (l : List (κ × ν)) {k k' : κ} (v : ν) (h : k' ≠ k) :
    mapGet (mapSet l k v) k' = mapGet l k' := by
  induction l with
  | nil => simp [mapSet, mapGet, Ne.symm h]
  | cons e rest ih =>
    obtain ⟨k₀, v₀⟩ := e
    by_cases h₀ : k₀ = k
    · subst h₀
      simp [mapSet, mapGet, Ne.symm h]
    · by_cases h₁ : k₀ = k'
      · subst h₁
        simp [mapSet, mapGet, h₀]
      · simp [mapSet, mapGet, h₀, h₁, ih]

theorem mapSet_of_mapGet_none (l : List (κ × ν)) (k : κ) (v : ν) (h : mapGet l k = none) :
    mapSet l k v = l ++ [(k, v)] := by
  induction l with
  | nil => rfl
  | cons e rest ih =>
    obtain ⟨k', v'⟩ := e
    by_cases h' : k' = k
    · simp [mapGet, h'] at h
    · simp only [mapGet, h', if_false] at h
      simp [mapSet, h', ih h]

theorem mapSet_of_mapGet_some (l : List (κ × ν)) (k : κ) (v : ν) (h : mapGet l k = some v) :
    mapSet l k v = l := by
  induction l with
  | nil => simp [mapGet] at h
  | cons e rest ih =>
    obtain ⟨k', v'⟩ := e
    by_cases h' : k' = k
    · subst h'
      simp only [mapGet, if_true, Option.some.injEq] at h
      simp [mapSet, h]
    · simp only [mapGet, h', if_false] at h
      simp [mapSet, h', ih h]

theorem mapGet_mem (l : List (κ × ν)) (k : κ) (v : ν) (h : mapGet l k = some v) :
    (k, v) ∈ l := by
  induction l with
  | nil => simp [mapGet] at h
  | cons e rest ih =>
    obtain ⟨k', v'⟩ := e
    by_cases h' : k' = k
    · subst h'
      simp only [mapGet, if_true, Option.some.injEq] at h
      simp [h]
    · simp only [mapGet, h', if_false] at h
      exact List.mem_cons_of_mem _ (ih h)

theorem mem_mapSet (l : List (κ × ν)) (k : κ) (v : ν) (e : κ × ν) (h : e ∈ mapSet l k v) :
    e = (k, v) ∨ e ∈ l := by
  induction l with
  | nil => simpa [mapSet] using h
  | cons e' rest ih =>
    obtain ⟨k', v'⟩ := e'
    by_cases h' : k' = k
    · simp only [mapSet, h', if_true, List.mem_cons] at h
      rcases h with h | h
      · exact Or.inl h
      · exact Or.inr (List.mem_cons_of_mem _ h)
    · simp only [mapSet, h', if_false, List.mem_cons] at h
      rcases h with h | h
      · exact Or.inr (by simp [h])
      · rcases ih h with h | h
        · exact Or.inl h
        · exact Or.inr (List.mem_cons_of_mem _ h)

theorem mem_setAdd (s : List ConnRef) (c x : ConnRef) : x ∈ setAdd s c ↔ x ∈ s ∨ x = c := by
  unfold setAdd
  by_cases h : c ∈ s
  · simp only [h, if_true]
    constructor
    · exact Or.inl
    · rintro (h' | h')
      · exact h'
      · exact h' ▸ h
  · simp [h]

theorem mem_setDelete (s : List ConnRef) (c x : ConnRef) : x ∈ setDelete s c ↔ x ∈ s ∧ x ≠ c := by
  simp [setDelete]

end MapSet

end ModuleGraphJs

namespace ModuleGraphJs

namespace ModuleGraph

/-! ## Field-by-field effect of the methods -/

theorem getModuleSet_heap (g : ModuleGraph) (m : Module) : (g._getModuleSet m).1.heap = g.heap := by
  unfold _getModuleSet; split <;> rfl

theorem getModuleSet_dependencyMap (g : ModuleGraph) (m : Module) :
    (g._getModuleSet m).1._dependencyMap = g._dependencyMap := by
  unfold _getModuleSet; split <;> rfl

theorem getModuleSet_metaMap (g : ModuleGraph) (m : Module) :
    (g._getModuleSet m).1._metaMap = g._metaMap ∧ (g._getModuleSet m).1.metaHeap = g.metaHeap := by
  unfold _getModuleSet; split <;> exact ⟨rfl, rfl⟩

theorem getModuleSet_snd (g : ModuleGraph) (m : Module) : (g._getModuleSet m).2 = g.reasons m := by
  unfold _getModuleSet reasons; split <;> simp [*]

theorem getModuleSet_mapGet (g : ModuleGraph) (m x : Module) :
    (mapGet (g._getModuleSet m).1._moduleMap x).getD [] = g.reasons x := by
  unfold _getModuleSet reasons
  split
  · rfl
  · rename_i h
    by_cases hx : x = m
    · subst hx; simp [mapGet_mapSet_self, h]
    · simp [mapGet_mapSet_ne _ _ hx]

theorem getModuleSet_mapGet_self (g : ModuleGraph) (m : Module) :
    mapGet (g._getModuleSet m).1._moduleMap m = some (g.reasons m) := by
  unfold _getModuleSet reasons
  split
  · rename_i s h; simp [h]
  · rename_i h; simp [mapGet_mapSet_self, h]

theorem deref_eq_of_heap {g g' : ModuleGraph} (h : g'.heap = g.heap) (c : ConnRef) :
    g'.deref c = g.deref c := by
  simp [deref, h]

theorem deref_append_lt (h : List ModuleGraphConnection) (x : ModuleGraphConnection) (c : ConnRef)
    (hc : c < h.length) (dflt : ModuleGraphConnection) :
    (h ++ [x]).getD c dflt = h.getD c dflt := by
  simp [List.getD_eq_getElem?_getD, List.getElem?_append_left hc]

theorem deref_append_length (h : List ModuleGraphConnection) (x : ModuleGraphConnection)
    (dflt : ModuleGraphConnection) :
    (h ++ [x]).getD h.length dflt = x := by
  simp [List.getD_eq_getElem?_getD]

theorem setResolvedModule_heap (g : ModuleGraph) (o : Module) (d : Dependency) (m : Module) :
    (g.setResolvedModule o d m).1.heap =
      g.heap ++ [ModuleGraphConnection.new (some o) (some d) m none] := by
  simp [setResolvedModule, getModuleSet_heap]

theorem setResolvedModule_dependencyMap (g : ModuleGraph) (o : Module) (d : Dependency)
    (m : Module) :
    (g.setResolvedModule o d m).1._dependencyMap = mapSet g._dependencyMap d g.heap.length := by
  simp [setResolvedModule, getModuleSet_dependencyMap]

theorem setResolvedModule_reasons (g : ModuleGraph) (o : Module) (d : Dependency) (m x : Module) :
    (g.setResolvedModule o d m).1.reasons x =
      if x = m then setAdd (g.reasons m) g.heap.length else g.reasons x := by
  by_cases hx : x = m
  · subst hx
    simp [setResolvedModule, reasons, mapGet_mapSet_self, getModuleSet_snd]
  · simp only [hx, if_false]
    simp only [setResolvedModule, reasons, mapGet_mapSet_ne _ _ hx]
    exact getModuleSet_mapGet _ m x

end ModuleGraph
end ModuleGraphJs

namespace ModuleGraphJs

namespace ModuleGraph

theorem addExtraReason_heap (g : ModuleGraph) (m : Module) (e : String) :
    (g.addExtraReason m e).1.heap = g.heap ++ [ModuleGraphConnection.new none none m (some e)] := by
  simp [addExtraReason, getModuleSet_heap]

theorem addExtraReason_dependencyMap (g : ModuleGraph) (m : Module) (e : String) :
    (g.addExtraReason m e).1._dependencyMap = g._dependencyMap := by
  simp [addExtraReason, getModuleSet_dependencyMap]

theorem addExtraReason_reasons (g : ModuleGraph) (m : Module) (e : String) (x : Module) :
    (g.addExtraReason m e).1.reasons x =
      if x = m then setAdd (g.reasons m) g.heap.length else g.reasons x := by
  by_cases hx : x = m
  · subst hx
    simp [addExtraReason, reasons, mapGet_mapSet_self, getModuleSet_snd, getModuleSet_heap]
  · simp only [hx, if_false]
    simp only [addExtraReason, reasons, mapGet_mapSet_ne _ _ hx]
    exact getModuleSet_mapGet _ m x

theorem getReasons_snd (g : ModuleGraph) (m : Module) : (g.getReasons m).2 = g.reasons m :=
  getModuleSet_snd g m

theorem getReasons_reasons (g : ModuleGraph) (m x : Module) :
    (g.getReasons m).1.reasons x = g.reasons x :=
  getModuleSet_mapGet g m x

theorem getResolvedModule_eq_of {g g' : ModuleGraph} (hd : g'._dependencyMap = g._dependencyMap)
    (hh : ∀ e ∈ g._dependencyMap, (g'.deref e.2).resolvedModule = (g.deref e.2).resolvedModule)
    (d : Dependency) : g'.getResolvedModule d = g.getResolvedModule d := by
  unfold getResolvedModule
  rw [hd]
  cases h : mapGet g._dependencyMap d with
  | none => rfl
  | some c => simp [hh _ (mapGet_mem _ _ _ h)]

theorem getModule_eq_getResolvedModule (g : ModuleGraph) (d : Dependency) :
    g.getModule d = g.getResolvedModule d := rfl

end ModuleGraph

open ModuleGraph

/-- C3 (round trip, P1): in every graph state, `setResolvedModule(o, d, m)`
returns, and right after it `getResolvedModule(d)` and `getModule(d)` both
return `m`. -/
theorem C3_setResolvedModule_round_trip (g : ModuleGraph) (o : Module) (d : Dependency)
    (m : Module) :
    (g.setResolvedModule o d m).2 = .returns () ∧
    (g.setResolvedModule o d m).1.getResolvedModule d = some m ∧
    (g.setResolvedModule o d m).1.getModule d = some m := by
  have key : (g.setResolvedModule o d m).1.getResolvedModule d = some m := by
    unfold getResolvedModule
    rw [setResolvedModule_dependencyMap, mapGet_mapSet_self]
    simp only [deref, setResolvedModule_heap, deref_append_length]
    rfl
  exact ⟨rfl, key, key⟩

/-- C4 (extra reasons, P5): on a graph whose references are allocated, after
`addExtraReason(m, e)` the array `getReasons(m)` holds a connection with
`originModule == null`, `dependency == null` and `explanation == e`; the
forward map is the same object with the same entries, and `getModule(d)` and
`getResolvedModule(d)` return what they returned before, for every `d`. -/
theorem C4_addExtraReason_adds_synthetic_reason (g : ModuleGraph) (m : Module) (e : String)
    (hwf : g.WF) :
    (g.addExtraReason m e).2 = .returns () ∧
    (∃ c ∈ ((g.addExtraReason m e).1.getReasons m).2,
      ((g.addExtraReason m e).1.deref c).originModule = none ∧
      ((g.addExtraReason m e).1.deref c).dependency = none ∧
      ((g.addExtraReason m e).1.deref c).explanation = some e) ∧
    (g.addExtraReason m e).1._dependencyMap = g._dependencyMap ∧
    ∀ d, (g.addExtraReason m e).1.getModule d = g.getModule d ∧
      (g.addExtraReason m e).1.getResolvedModule d = g.getResolvedModule d := by
  refine ⟨rfl, ⟨g.heap.length, ?_, ?_⟩, addExtraReason_dependencyMap g m e, ?_⟩
  · rw [getReasons_snd, addExtraReason_reasons]
    simp [mem_setAdd]
  · simp only [deref, addExtraReason_heap, deref_append_length]
    exact ⟨rfl, rfl, rfl⟩
  · have h : ∀ d, (g.addExtraReason m e).1.getResolvedModule d = g.getResolvedModule d := by
      apply getResolvedModule_eq_of (addExtraReason_dependencyMap g m e)
      intro x hx
      simp only [deref, addExtraReason_heap]
      rw [deref_append_lt _ _ _ (hwf.1 x hx)]
    exact fun d => ⟨h d, h d⟩

/-- Witness of C4 on the graph built by `setResolvedModule(0, 0, 1)`. -/
theorem C4_addExtraReason_adds_synthetic_reason_witness :
    (ModuleGraph.new.setResolvedModule 0 0 1).1.WF ∧
    (((ModuleGraph.new.setResolvedModule 0 0 1).1.addExtraReason 1 "entry").1.getReasons 1).2
      = [0, 1] ∧
    ((ModuleGraph.new.setResolvedModule 0 0 1).1.addExtraReason 1 "entry").1.getModule 0
      = some 1 :=
  ⟨by decide, by decide,
    ((C4_addExtraReason_adds_synthetic_reason (ModuleGraph.new.setResolvedModule 0 0 1).1 1
      "entry" (by decide)).2.2.2 0).1.trans (by decide)⟩

end ModuleGraphJs

namespace ModuleGraphJs

open ModuleGraph

/-- C5 (no-op retarget, P4): when reference `d` has a connection `c` whose
current target is already `m`, `updateModule(d, m)` returns and changes
nothing: the graph is the same, so `getReasons(x)` gives the same array for
every module `x` and the fields of `c` are the same. -/
theorem C5_updateModule_same_target_is_noop (g : ModuleGraph) (d : Dependency) (c : ConnRef)
    (m : Module) (hd : mapGet g._dependencyMap d = some c) (hm : (g.deref c).module = m) :
    (g.updateModule d m).2 = .returns () ∧
    (g.updateModule d m).1 = g ∧
    (∀ x, ((g.updateModule d m).1.getReasons x).2 = (g.getReasons x).2) ∧
    (g.updateModule d m).1.deref c = g.deref c := by
  have h : g.updateModule d m = (g, .returns ()) := by
    simp [updateModule, hd, hm]
  simp [h]

/-- Witness of C5: after `setResolvedModule(0, 0, 1)`, `updateModule(0, 1)`. -/
theorem C5_updateModule_same_target_is_noop_witness :
    mapGet (ModuleGraph.new.setResolvedModule 0 0 1).1._dependencyMap 0 = some 0 ∧
    ((ModuleGraph.new.setResolvedModule 0 0 1).1.deref 0).module = 1 ∧
    ((ModuleGraph.new.setResolvedModule 0 0 1).1.updateModule 0 1).1 =
      (ModuleGraph.new.setResolvedModule 0 0 1).1 :=
  ⟨by decide, by decide,
    (C5_updateModule_same_target_is_noop (ModuleGraph.new.setResolvedModule 0 0 1).1 0 0 1
      (by decide) (by decide)).2.1⟩

/-- C8, as the code behaves: when reference `d` has no connection in the
forward map, `updateModule(d, m)` throws a `TypeError` (reading `.module` of
`undefined`) for every module `m`, and the graph is left as it was. -/
theorem C8_updateModule_unknown_reference_throws_TypeError (g : ModuleGraph) (d : Dependency)
    (m : Module) (hd : mapGet g._dependencyMap d = none) :
    g.updateModule d m = (g, .throws .typeError) := by
  simp [updateModule, hd]

/-- Witness of the amended C8 on the fresh graph. -/
theorem C8_updateModule_unknown_reference_throws_TypeError_witness :
    mapGet ModuleGraph.new._dependencyMap 7 = none ∧
    ModuleGraph.new.updateModule 7 3 = (ModuleGraph.new, .throws .typeError) :=
  ⟨by decide, C8_updateModule_unknown_reference_throws_TypeError ModuleGraph.new 7 3 (by decide)⟩

/-- Counterexample to C8 as stated: on the fresh graph reference `0` has no
connection, and `updateModule(0, 0)` does not fail with
`UnknownReferenceError`; it fails with a `TypeError`. -/
theorem C8_counterexample_not_UnknownReferenceError :
    mapGet ModuleGraph.new._dependencyMap 0 = none ∧
    (ModuleGraph.new.updateModule 0 0).2 ≠ .throws .unknownReferenceError ∧
    (ModuleGraph.new.updateModule 0 0).2 = .throws .typeError := by
  decide

/-- C10, as the code behaves: `getReasons(m)` leaves the connection objects,
the forward map and the metadata map and objects unchanged; the reverse map
is unchanged when `m` has an entry and otherwise gains one entry, `m` with an
empty set, after its other entries; `getReasons`, `getModule` and
`getResolvedModule` return afterwards what they returned before. -/
theorem C10_getReasons_only_adds_empty_entry (g : ModuleGraph) (m : Module) :
    (g.getReasons m).1.heap = g.heap ∧
    (g.getReasons m).1._dependencyMap = g._dependencyMap ∧
    (g.getReasons m).1._metaMap = g._metaMap ∧
    (g.getReasons m).1.metaHeap = g.metaHeap ∧
    (g.getReasons m).1._moduleMap =
      (if (mapGet g._moduleMap m).isSome then g._moduleMap else g._moduleMap ++ [(m, [])]) ∧
    (∀ x, ((g.getReasons m).1.getReasons x).2 = (g.getReasons x).2) ∧
    (∀ d, (g.getReasons m).1.getModule d = g.getModule d ∧
      (g.getReasons m).1.getResolvedModule d = g.getResolvedModule d) := by
  refine ⟨getModuleSet_heap g m, getModuleSet_dependencyMap g m, (getModuleSet_metaMap g m).1,
    (getModuleSet_metaMap g m).2, ?_, ?_, ?_⟩
  · unfold getReasons _getModuleSet
    cases h : mapGet g._moduleMap m with
    | some s => simp
    | none => simp [mapSet_of_mapGet_none _ _ _ h]
  · intro x
    rw [getReasons_snd, getReasons_snd, getReasons_reasons]
  · have h : ∀ d, (g.getReasons m).1.getResolvedModule d = g.getResolvedModule d :=
      getResolvedModule_eq_of (getModuleSet_dependencyMap g m)
        (fun e _ => congrArg _ (deref_eq_of_heap (getModuleSet_heap g m) e.2))
    exact fun d => ⟨h d, h d⟩

/-- Counterexample to C10 as stated: on the fresh graph, where module `0` has
no reverse-set entry, `getReasons(0)` adds the key `0` to the reverse map; and
a later call behaves differently because of it: after
`setResolvedModule(0, 0, 1)`, `updateModule(0, 2)` throws, but returns when
`getReasons(2)` was called first. -/
theorem C10_counterexample_getReasons_allocates_entry :
    ModuleGraph.new._moduleMap = [] ∧
    (ModuleGraph.new.getReasons 0).1._moduleMap = [(0, [])] ∧
    (ModuleGraph.new.getReasons 0).1 ≠ ModuleGraph.new ∧
    ((ModuleGraph.new.setResolvedModule 0 0 1).1.updateModule 0 2).2 = .throws .typeError ∧
    (((ModuleGraph.new.setResolvedModule 0 0 1).1.getReasons 2).1.updateModule 0 2).2
      = .returns () := by
  decide

end ModuleGraphJs

namespace ModuleGraphJs

namespace ModuleGraph

theorem getD_set_resolvedModule (h : List ModuleGraphConnection) (c : ConnRef) (m : Module)
    (dflt : ModuleGraphConnection) (x : ConnRef) :
    ((h.set c { h.getD c dflt with module := m }).getD x dflt).resolvedModule =
      (h.getD x dflt).resolvedModule := by
  by_cases hx : c = x
  · subst hx
    by_cases hc : c < h.length
    · simp [List.getD_eq_getElem?_getD, List.getElem?_set, hc]
    · have hn : h[c]? = none := List.getElem?_eq_none (Nat.le_of_not_lt hc)
      simp [List.getD_eq_getElem?_getD, List.getElem?_set, hc, hn]
  · simp [List.getD_eq_getElem?_getD, List.getElem?_set, hx]

theorem updateModule_dependencyMap (g : ModuleGraph) (d : Dependency) (m : Module) :
    (g.updateModule d m).1._dependencyMap = g._dependencyMap := by
  unfold updateModule
  split
  · rfl
  · split
    · rfl
    · split
      · rfl
      · dsimp only
        split <;> rfl

theorem updateModule_resolvedModule (g : ModuleGraph) (d : Dependency) (m : Module) (x : ConnRef) :
    ((g.updateModule d m).1.deref x).resolvedModule = (g.deref x).resolvedModule := by
  unfold updateModule
  split
  · rfl
  · split
    · rfl
    · split
      · rfl
      · dsimp only
        split <;> exact getD_set_resolvedModule _ _ _ _ _

theorem updateModule_target (g : ModuleGraph) (d : Dependency) (m : Module) (c : ConnRef)
    (hd : mapGet g._dependencyMap d = some c) (hc : c < g.heap.length)
    (hr : (g.updateModule d m).2.isReturn = true) :
    ((g.updateModule d m).1.deref c).module = m := by
  unfold updateModule at hr ⊢
  rw [hd] at hr ⊢
  dsimp only at hr ⊢
  split
  · assumption
  · rename_i hne
    rw [if_neg hne] at hr
    split
    · rename_i h; rw [h] at hr; simp [Completion.isReturn] at hr
    · split <;> simp [deref, List.getD_eq_getElem?_getD, List.getElem?_set, hc]

end ModuleGraph
end ModuleGraphJs

namespace ModuleGraphJs

namespace ModuleGraph

theorem call_resolvedModule (g : ModuleGraph) (k : Call) (x : ConnRef) (hx : x < g.heap.length) :
    ((g.call k).1.deref x).resolvedModule = (g.deref x).resolvedModule := by
  cases k with
  | setResolvedModule o d m =>
    simp only [call, deref, setResolvedModule_heap, deref_append_lt _ _ _ hx]
  | updateModule d m => exact updateModule_resolvedModule g d m x
  | addExtraReason m e =>
    simp only [call, deref, addExtraReason_heap, deref_append_lt _ _ _ hx]
  | getResolvedModule d => rfl
  | getModule d => rfl
  | getReasons m => exact congrArg _ (deref_eq_of_heap (getModuleSet_heap g m) x)
  | getMeta t =>
    simp only [call, getMeta]
    split <;> rfl

theorem reasons_lt_of_WF {g : ModuleGraph} (hwf : g.WF) (m : Module) (c : ConnRef)
    (hc : c ∈ g.reasons m) : c < g.heap.length := by
  unfold reasons at hc
  cases h : mapGet g._moduleMap m with
  | none => simp [h] at hc
  | some s =>
    rw [h] at hc
    exact hwf.2 _ (mapGet_mem _ _ _ h) c hc

theorem setAdd_fresh (s : List ConnRef) (c : ConnRef) (h : c ∉ s) : setAdd s c = s ++ [c] := by
  simp [setAdd, h]

end ModuleGraph

open ModuleGraph

/-- C6 (original resolution preserved): when reference `d` has the allocated
connection `c` with `resolvedModule` `m0` and `updateModule(d, m)` returns,
then afterwards `getResolvedModule(d)` and `getModule(d)` still return `m0`,
both getters return what they returned before for every reference, and the
current target of `c` is `m`. Moreover no call of any method, returning or
throwing, changes the `resolvedModule` of a connection that exists. -/
theorem C6_updateModule_keeps_resolvedModule (g : ModuleGraph) (d : Dependency) (c : ConnRef)
    (m0 m : Module) (hd : mapGet g._dependencyMap d = some c) (hc : c < g.heap.length)
    (h0 : (g.deref c).resolvedModule = m0) (hr : (g.updateModule d m).2.isReturn = true) :
    (g.updateModule d m).1.getResolvedModule d = some m0 ∧
    (g.updateModule d m).1.getModule d = some m0 ∧
    (∀ d', (g.updateModule d m).1.getResolvedModule d' = g.getResolvedModule d' ∧
      (g.updateModule d m).1.getModule d' = g.getModule d') ∧
    ((g.updateModule d m).1.deref c).module = m ∧
    (∀ (k : Call) (x : ConnRef), x < g.heap.length →
      ((g.call k).1.deref x).resolvedModule = (g.deref x).resolvedModule) := by
  have hall : ∀ d', (g.updateModule d m).1.getResolvedModule d' = g.getResolvedModule d' :=
    getResolvedModule_eq_of (updateModule_dependencyMap g d m)
      (fun e _ => updateModule_resolvedModule g d m e.2)
  have hd0 : g.getResolvedModule d = some m0 := by
    simp [getResolvedModule, hd, h0]
  refine ⟨(hall d).trans hd0, (hall d).trans hd0, fun d' => ⟨hall d', hall d'⟩,
    updateModule_target g d m c hd hc hr, fun k x hx => call_resolvedModule g k x hx⟩

/-- Witness of C6: `setResolvedModule(0, 0, 1)`, `getReasons(2)`, then
`updateModule(0, 2)` returns; the getters still give module `1`. -/
theorem C6_updateModule_keeps_resolvedModule_witness :
    mapGet ((ModuleGraph.new.setResolvedModule 0 0 1).1.getReasons 2).1._dependencyMap 0
      = some 0 ∧
    ((((ModuleGraph.new.setResolvedModule 0 0 1).1.getReasons 2).1.updateModule 0 2).2.isReturn
      = true) ∧
    (((ModuleGraph.new.setResolvedModule 0 0 1).1.getReasons 2).1.updateModule 0 2).1.getModule 0
      = some 1 ∧
    ((((ModuleGraph.new.setResolvedModule 0 0 1).1.getReasons 2).1.updateModule 0 2).1.deref
      0).module = 2 :=
  ⟨by decide, by decide,
    (C6_updateModule_keeps_resolvedModule
      ((ModuleGraph.new.setResolvedModule 0 0 1).1.getReasons 2).1 0 0 1 2
      (by decide) (by decide) (by decide) (by decide)).2.1,
    (C6_updateModule_keeps_resolvedModule
      ((ModuleGraph.new.setResolvedModule 0 0 1).1.getReasons 2).1 0 0 1 2
      (by decide) (by decide) (by decide) (by decide)).2.2.2.1⟩

/-- C7, as the code behaves: when reference `d` already has a connection
`c0` (on a graph whose references are allocated), `setResolvedModule(o, d, m)`
returns without any error. It creates a new connection `(o, d, m)`, distinct
from `c0`, puts it in the forward map under `d` in place of `c0`, and appends
it to the reverse set of `m`. The fields of `c0`, the forward entries of the
other references and every other reverse set are unchanged, so `c0` stays in
the reverse set it was in. -/
theorem C7_setResolvedModule_overwrites_existing_reference (g : ModuleGraph) (o : Module)
    (d : Dependency) (m : Module) (c0 : ConnRef) (hwf : g.WF)
    (hd : mapGet g._dependencyMap d = some c0) :
    (g.setResolvedModule o d m).2 = .returns () ∧
    mapGet (g.setResolvedModule o d m).1._dependencyMap d = some g.heap.length ∧
    g.heap.length ≠ c0 ∧
    (g.setResolvedModule o d m).1.deref g.heap.length =
      ModuleGraphConnection.new (some o) (some d) m none ∧
    (g.setResolvedModule o d m).1.deref c0 = g.deref c0 ∧
    (∀ d', d' ≠ d →
      mapGet (g.setResolvedModule o d m).1._dependencyMap d' = mapGet g._dependencyMap d') ∧
    (∀ x, ((g.setResolvedModule o d m).1.getReasons x).2 =
      if x = m then (g.getReasons m).2 ++ [g.heap.length] else (g.getReasons x).2) := by
  have hc0 : c0 < g.heap.length := hwf.1 _ (mapGet_mem _ _ _ hd)
  refine ⟨rfl, ?_, Nat.ne_of_gt hc0, ?_, ?_, ?_, ?_⟩
  · rw [setResolvedModule_dependencyMap, mapGet_mapSet_self]
  · simp only [deref, setResolvedModule_heap, deref_append_length]
  · simp only [deref, setResolvedModule_heap, deref_append_lt _ _ _ hc0]
  · intro d' hd'
    rw [setResolvedModule_dependencyMap, mapGet_mapSet_ne _ _ hd']
  · intro x
    simp only [getReasons_snd, setResolvedModule_reasons]
    by_cases hx : x = m
    · simp only [hx, if_true]
      exact setAdd_fresh _ _ (fun h => Nat.lt_irrefl _ (reasons_lt_of_WF hwf m _ h))
    · simp only [hx, if_false]

/-- Witness of the amended C7: `setResolvedModule(0, 0, 1)` twice over. -/
theorem C7_setResolvedModule_overwrites_existing_reference_witness :
    (ModuleGraph.new.setResolvedModule 0 0 1).1.WF ∧
    mapGet (ModuleGraph.new.setResolvedModule 0 0 1).1._dependencyMap 0 = some 0 ∧
    ((ModuleGraph.new.setResolvedModule 0 0 1).1.setResolvedModule 5 0 2).2 = .returns () :=
  ⟨by decide, by decide,
    (C7_setResolvedModule_overwrites_existing_reference
      (ModuleGraph.new.setResolvedModule 0 0 1).1 5 0 2 0 (by decide) (by decide)).1⟩

/-- Counterexample to C7 as stated: after `setResolvedModule(0, 0, 1)`
reference `0` has a connection, yet `setResolvedModule(5, 0, 2)` returns
instead of failing with `DuplicateReferenceError`, and the index is changed:
`getResolvedModule(0)` goes from module `1` to module `2`. -/
theorem C7_counterexample_duplicate_reference_accepted :
    mapGet (ModuleGraph.new.setResolvedModule 0 0 1).1._dependencyMap 0 = some 0 ∧
    ((ModuleGraph.new.setResolvedModule 0 0 1).1.setResolvedModule 5 0 2).2
      ≠ .throws .duplicateReferenceError ∧
    ((ModuleGraph.new.setResolvedModule 0 0 1).1.setResolvedModule 5 0 2).2 = .returns () ∧
    (ModuleGraph.new.setResolvedModule 0 0 1).1.getResolvedModule 0 = some 1 ∧
    ((ModuleGraph.new.setResolvedModule 0 0 1).1.setResolvedModule 5 0 2).1.getResolvedModule 0
      = some 2 ∧
    ((ModuleGraph.new.setResolvedModule 0 0 1).1.setResolvedModule 5 0 2).1
      ≠ (ModuleGraph.new.setResolvedModule 0 0 1).1 := by
  decide

end ModuleGraphJs

namespace ModuleGraphJs

open ModuleGraph

/-- C1 at a failing input: on a fresh graph, after `setResolvedModule(0, 0, 1)`
and then `updateModule(0, 2)` (which throws, module `2` having no reverse
set), the connection `0` exists and its current target is `2`, but it is not
in `getReasons(2)`; the reverse index is not consistent (R1 fails). -/
theorem C1_failing_sequence_breaks_reverse_index :
    ((ModuleGraph.new.call (.setResolvedModule 0 0 1)).1.call (.updateModule 0 2)).2 = false ∧
    0 < (ModuleGraph.new.callAll [.setResolvedModule 0 0 1, .updateModule 0 2]).heap.length ∧
    ((ModuleGraph.new.callAll [.setResolvedModule 0 0 1, .updateModule 0 2]).deref 0).module
      = 2 ∧
    0 ∉ ((ModuleGraph.new.callAll [.setResolvedModule 0 0 1, .updateModule 0 2]).getReasons
      2).2 ∧
    ¬ (ModuleGraph.new.callAll [.setResolvedModule 0 0 1, .updateModule 0 2]).R1 := by
  decide

/-- C2 at a failing input, the scenario of the claim (`A = 0`, `r1 = 0`,
`B = 1`, `C = 2`): after `setResolvedModule(A, r1, B)` module `C` has no
reverse set, and `updateModule(r1, C)` throws a `TypeError` instead of
creating one. Afterwards `getReasons(B)` is empty and `getReasons(C)` is empty
as well: the connection has been removed, not moved. The same happens when
`getReasons(B)` and `getReasons(A)` are called in between. -/
theorem C2_failing_updateModule_to_module_without_reverse_set :
    mapGet (ModuleGraph.new.setResolvedModule 0 0 1).1._moduleMap 2 = none ∧
    ((ModuleGraph.new.setResolvedModule 0 0 1).1.updateModule 0 2).2 = .throws .typeError ∧
    (((ModuleGraph.new.setResolvedModule 0 0 1).1.updateModule 0 2).1.getReasons 1).2 = [] ∧
    (((ModuleGraph.new.setResolvedModule 0 0 1).1.updateModule 0 2).1.getReasons 2).2 = [] ∧
    ((ModuleGraph.new.callAll [.setResolvedModule 0 0 1, .getReasons 1, .getReasons 0]).updateModule
      0 2).2 = .throws .typeError := by
  decide

/-- C9 at a failing input: the graph built by `setResolvedModule(3, 0, 1)` and
`addExtraReason(1, "entry")` satisfies R1; `updateModule(0, 4)` throws a
`TypeError`, and the graph it leaves is neither the graph before the call nor
a graph satisfying R1: connection `0` has current target `4`, it is in no
reverse set, and module `4` has no reverse set. -/
theorem C9_failing_updateModule_is_not_atomic :
    ((ModuleGraph.new.setResolvedModule 3 0 1).1.addExtraReason 1 "entry").1.R1 ∧
    (((ModuleGraph.new.setResolvedModule 3 0 1).1.addExtraReason 1 "entry").1.updateModule
      0 4).2 = .throws .typeError ∧
    (((ModuleGraph.new.setResolvedModule 3 0 1).1.addExtraReason 1 "entry").1.updateModule
      0 4).1 ≠ ((ModuleGraph.new.setResolvedModule 3 0 1).1.addExtraReason 1 "entry").1 ∧
    ¬ (((ModuleGraph.new.setResolvedModule 3 0 1).1.addExtraReason 1 "entry").1.updateModule
      0 4).1.R1 ∧
    ((((ModuleGraph.new.setResolvedModule 3 0 1).1.addExtraReason 1 "entry").1.updateModule
      0 4).1.deref 0).module = 4 ∧
    (((ModuleGraph.new.setResolvedModule 3 0 1).1.addExtraReason 1 "entry").1.updateModule
      0 4).1._moduleMap = [(1, [1])] := by
  decide

end ModuleGraphJs

namespace ModuleGraphJs

namespace ModuleGraph

/-! ## The reverse index under calls that return -/

theorem updateModule_move (g : ModuleGraph) (d : Dependency) (m : Module) (c : ConnRef)
    (oldSet newSet : List ConnRef) (hd : mapGet g._dependencyMap d = some c)
    (hne : (g.deref c).module ≠ m)
    (hold : mapGet g._moduleMap (g.deref c).module = some oldSet)
    (hnew : mapGet g._moduleMap m = some newSet) :
    g.updateModule d m =
      ({ g with
          heap := g.heap.set c { g.deref c with module := m }
          _moduleMap := mapSet (mapSet g._moduleMap (g.deref c).module (setDelete oldSet c)) m
            (setAdd newSet c) }, .returns ()) := by
  have h2 : mapGet (mapSet g._moduleMap (g.deref c).module (setDelete oldSet c)) m
      = some newSet := by
    rw [mapGet_mapSet_ne _ _ (Ne.symm hne), hnew]
  unfold updateModule
  rw [hd]
  simp only [hne, if_false, hold]
  rw [h2]
  rfl

theorem updateModule_returns_cases (g : ModuleGraph) (d : Dependency) (m : Module)
    (hr : (g.updateModule d m).2.isReturn = true) :
    ∃ c, mapGet g._dependencyMap d = some c ∧
      ((g.deref c).module = m ∨
        ((g.deref c).module ≠ m ∧ ∃ oldSet newSet,
          mapGet g._moduleMap (g.deref c).module = some oldSet ∧
          mapGet g._moduleMap m = some newSet)) := by
  unfold updateModule at hr
  cases hd : mapGet g._dependencyMap d with
  | none => rw [hd] at hr; simp [Completion.isReturn] at hr
  | some c =>
    refine ⟨c, rfl, ?_⟩
    rw [hd] at hr
    dsimp only at hr
    by_cases hm : (g.deref c).module = m
    · exact Or.inl hm
    · right
      refine ⟨hm, ?_⟩
      rw [if_neg hm] at hr
      cases hold : mapGet g._moduleMap (g.deref c).module with
      | none => rw [hold] at hr; simp [Completion.isReturn] at hr
      | some oldSet =>
        rw [hold] at hr
        dsimp only at hr
        rw [mapGet_mapSet_ne _ _ (Ne.symm hm)] at hr
        cases hnew : mapGet g._moduleMap m with
        | none => rw [hnew] at hr; simp [Completion.isReturn] at hr
        | some newSet => exact ⟨oldSet, newSet, rfl, rfl⟩

end ModuleGraph
end ModuleGraphJs

namespace ModuleGraphJs

namespace ModuleGraph

theorem mapGet_some_key {κ ν : Type} [DecidableEq κ] (l : List (κ × ν)) (k : κ) (v : ν)
    (h : mapGet l k = some v) : k ∈ l.map Prod.fst :=
  List.mem_map.2 ⟨(k, v), mapGet_mem l k v h, rfl⟩

theorem mem_reasons_key {g : ModuleGraph} {m : Module} {c : ConnRef} (h : c ∈ g.reasons m) :
    m ∈ g._moduleMap.map Prod.fst := by
  unfold reasons at h
  cases hm : mapGet g._moduleMap m with
  | none => simp [hm] at h
  | some s => exact mapGet_some_key _ _ _ hm

theorem R1_iff_P2 (g : ModuleGraph) : g.R1 ↔ g.P2 := by
  unfold R1 P2
  simp only [getReasons_snd, List.mem_range]
  constructor
  · intro h c hc m
    constructor
    · intro hm
      exact ((h c hc).2 m (mem_reasons_key hm) hm).symm
    · intro hm
      exact hm ▸ (h c hc).1
  · intro h c hc
    exact ⟨(h c hc _).2 rfl, fun m _ hm => ((h c hc m).1 hm).symm⟩

theorem mem_getModuleSet_moduleMap (g : ModuleGraph) (m : Module) (e : Module × List ConnRef)
    (h : e ∈ (g._getModuleSet m).1._moduleMap) : e = (m, []) ∨ e ∈ g._moduleMap := by
  unfold _getModuleSet at h
  split at h
  · exact Or.inr h
  · exact mem_mapSet _ _ _ _ h

theorem WF_setResolvedModule (g : ModuleGraph) (o : Module) (d : Dependency) (m : Module)
    (hwf : g.WF) : (g.setResolvedModule o d m).1.WF := by
  constructor
  · intro e he
    rw [setResolvedModule_dependencyMap] at he
    rw [setResolvedModule_heap]
    simp only [List.length_append, List.length_singleton]
    rcases mem_mapSet _ _ _ _ he with h | h
    · simp [h]
    · exact Nat.lt_succ_of_lt (hwf.1 e h)
  · intro e he c hc
    rw [setResolvedModule_heap]
    simp only [List.length_append, List.length_singleton]
    simp only [setResolvedModule] at he
    rcases mem_mapSet _ _ _ _ he with h | h
    · rw [h, getModuleSet_snd] at hc
      rcases (mem_setAdd _ _ _).1 hc with h' | h'
      · exact Nat.lt_succ_of_lt (reasons_lt_of_WF hwf m c h')
      · simp [h']
    · rcases mem_getModuleSet_moduleMap _ _ _ h with h' | h'
      · simp [h'] at hc
      · exact Nat.lt_succ_of_lt (hwf.2 e h' c hc)

theorem WF_addExtraReason (g : ModuleGraph) (m : Module) (e : String) (hwf : g.WF) :
    (g.addExtraReason m e).1.WF := by
  constructor
  · intro x hx
    rw [addExtraReason_dependencyMap] at hx
    rw [addExtraReason_heap]
    simp only [List.length_append, List.length_singleton]
    exact Nat.lt_succ_of_lt (hwf.1 x hx)
  · intro x hx c hc
    rw [addExtraReason_heap]
    simp only [List.length_append, List.length_singleton]
    simp only [addExtraReason] at hx
    rcases mem_mapSet _ _ _ _ hx with h | h
    · rw [h, getModuleSet_snd, getModuleSet_heap] at hc
      rcases (mem_setAdd _ _ _).1 hc with h' | h'
      · exact Nat.lt_succ_of_lt (reasons_lt_of_WF hwf m c h')
      · simp [h']
    · rcases mem_getModuleSet_moduleMap _ _ _ h with h' | h'
      · simp [h'] at hc
      · exact Nat.lt_succ_of_lt (hwf.2 x h' c hc)

theorem WF_getReasons (g : ModuleGraph) (m : Module) (hwf : g.WF) : (g.getReasons m).1.WF := by
  constructor
  · intro x hx
    rw [getReasons, getModuleSet_dependencyMap] at hx
    rw [getReasons, getModuleSet_heap]
    exact hwf.1 x hx
  · intro x hx c hc
    rw [getReasons, getModuleSet_heap]
    rcases mem_getModuleSet_moduleMap _ _ _ hx with h' | h'
    · simp [h'] at hc
    · exact hwf.2 x h' c hc

end ModuleGraph
end ModuleGraphJs

namespace ModuleGraphJs

namespace ModuleGraph

theorem P2_setResolvedModule (g : ModuleGraph) (o : Module) (d : Dependency) (m : Module)
    (hwf : g.WF) (h : g.P2) : (g.setResolvedModule o d m).1.P2 := by
  intro c hc x
  rw [getReasons_snd, setResolvedModule_reasons]
  rw [setResolvedModule_heap] at hc
  simp only [List.length_append, List.length_singleton] at hc
  have hfresh : ∀ y, g.heap.length ∉ g.reasons y :=
    fun y hy => Nat.lt_irrefl _ (reasons_lt_of_WF hwf y _ hy)
  rcases Nat.lt_succ_iff_lt_or_eq.1 hc with hlt | heq
  · have hderef : (g.setResolvedModule o d m).1.deref c = g.deref c := by
      simp only [deref, setResolvedModule_heap, deref_append_lt _ _ _ hlt]
    rw [hderef, ← h c hlt x, getReasons_snd]
    by_cases hx : x = m
    · subst hx
      simp only [if_true, mem_setAdd]
      exact ⟨fun h' => h'.resolve_right (Nat.ne_of_lt hlt), Or.inl⟩
    · simp only [hx, if_false]
  · subst heq
    have hderef : ((g.setResolvedModule o d m).1.deref g.heap.length).module = m := by
      simp only [deref, setResolvedModule_heap, deref_append_length]
      rfl
    rw [hderef]
    by_cases hx : x = m
    · subst hx
      simp [mem_setAdd]
    · simp only [hx, if_false]
      exact ⟨fun h' => absurd h' (hfresh x), fun h' => absurd h'.symm hx⟩

theorem P2_addExtraReason (g : ModuleGraph) (m : Module) (e : String)
    (hwf : g.WF) (h : g.P2) : (g.addExtraReason m e).1.P2 := by
  intro c hc x
  rw [getReasons_snd, addExtraReason_reasons]
  rw [addExtraReason_heap] at hc
  simp only [List.length_append, List.length_singleton] at hc
  have hfresh : ∀ y, g.heap.length ∉ g.reasons y :=
    fun y hy => Nat.lt_irrefl _ (reasons_lt_of_WF hwf y _ hy)
  rcases Nat.lt_succ_iff_lt_or_eq.1 hc with hlt | heq
  · have hderef : (g.addExtraReason m e).1.deref c = g.deref c := by
      simp only [deref, addExtraReason_heap, deref_append_lt _ _ _ hlt]
    rw [hderef, ← h c hlt x, getReasons_snd]
    by_cases hx : x = m
    · subst hx
      simp only [if_true, mem_setAdd]
      exact ⟨fun h' => h'.resolve_right (Nat.ne_of_lt hlt), Or.inl⟩
    · simp only [hx, if_false]
  · subst heq
    have hderef : ((g.addExtraReason m e).1.deref g.heap.length).module = m := by
      simp only [deref, addExtraReason_heap, deref_append_length]
      rfl
    rw [hderef]
    by_cases hx : x = m
    · subst hx
      simp [mem_setAdd]
    · simp only [hx, if_false]
      exact ⟨fun h' => absurd h' (hfresh x), fun h' => absurd h'.symm hx⟩

theorem P2_getReasons (g : ModuleGraph) (m : Module) (h : g.P2) : (g.getReasons m).1.P2 := by
  intro c hc x
  rw [getReasons, getModuleSet_heap] at hc
  have hderef : (g.getReasons m).1.deref c = g.deref c :=
    deref_eq_of_heap (getModuleSet_heap g m) c
  rw [getReasons_snd, getReasons_reasons, hderef, ← getReasons_snd]
  exact h c hc x

end ModuleGraph
end ModuleGraphJs

namespace ModuleGraphJs

namespace ModuleGraph

theorem updateModule_move_reasons (g : ModuleGraph) (d : Dependency) (m : Module) (c : ConnRef)
    (oldSet newSet : List ConnRef) (hd : mapGet g._dependencyMap d = some c)
    (hne : (g.deref c).module ≠ m)
    (hold : mapGet g._moduleMap (g.deref c).module = some oldSet)
    (hnew : mapGet g._moduleMap m = some newSet) (x : Module) :
    (g.updateModule d m).1.reasons x =
      if x = m then setAdd (g.reasons m) c
      else if x = (g.deref c).module then setDelete (g.reasons x) c else g.reasons x := by
  rw [updateModule_move g d m c oldSet newSet hd hne hold hnew]
  simp only [reasons]
  by_cases hx : x = m
  · subst hx
    simp [mapGet_mapSet_self, hnew]
  · simp only [hx, if_false, mapGet_mapSet_ne _ _ hx]
    by_cases hx' : x = (g.deref c).module
    · subst hx'
      simp [mapGet_mapSet_self, hold]
    · simp only [hx', if_false, mapGet_mapSet_ne _ _ hx']

theorem updateModule_move_deref (g : ModuleGraph) (d : Dependency) (m : Module) (c : ConnRef)
    (oldSet newSet : List ConnRef) (hd : mapGet g._dependencyMap d = some c)
    (hne : (g.deref c).module ≠ m)
    (hold : mapGet g._moduleMap (g.deref c).module = some oldSet)
    (hnew : mapGet g._moduleMap m = some newSet) (hc : c < g.heap.length) (x : ConnRef) :
    (g.updateModule d m).1.deref x =
      if x = c then { g.deref c with module := m } else g.deref x := by
  rw [updateModule_move g d m c oldSet newSet hd hne hold hnew]
  by_cases hx : x = c
  · subst hx
    simp [deref, List.getD_eq_getElem?_getD, List.getElem?_set, hc]
  · simp [deref, List.getD_eq_getElem?_getD, List.getElem?_set, hx, Ne.symm hx]

theorem WF_updateModule (g : ModuleGraph) (d : Dependency) (m : Module) (hwf : g.WF)
    (hr : (g.updateModule d m).2.isReturn = true) : (g.updateModule d m).1.WF := by
  obtain ⟨c, hd, h | ⟨hne, oldSet, newSet, hold, hnew⟩⟩ := updateModule_returns_cases g d m hr
  · have : g.updateModule d m = (g, .returns ()) := by simp [updateModule, hd, h]
    rw [this]; exact hwf
  · have hc : c < g.heap.length := hwf.1 _ (mapGet_mem _ _ _ hd)
    rw [updateModule_move g d m c oldSet newSet hd hne hold hnew]
    constructor
    · intro e he
      simp only [List.length_set]
      exact hwf.1 e he
    · intro e he x hx
      simp only [List.length_set]
      dsimp only at he
      rcases mem_mapSet _ _ _ _ he with h | h
      · rw [h] at hx
        rcases (mem_setAdd _ _ _).1 hx with h' | h'
        · exact hwf.2 _ (mapGet_mem _ _ _ hnew) x h'
        · exact h' ▸ hc
      · rcases mem_mapSet _ _ _ _ h with h' | h'
        · rw [h'] at hx
          exact hwf.2 _ (mapGet_mem _ _ _ hold) x ((mem_setDelete _ _ _).1 hx).1
        · exact hwf.2 e h' x hx

theorem P2_updateModule (g : ModuleGraph) (d : Dependency) (m : Module) (hwf : g.WF)
    (h : g.P2) (hr : (g.updateModule d m).2.isReturn = true) : (g.updateModule d m).1.P2 := by
  obtain ⟨c, hd, hm | ⟨hne, oldSet, newSet, hold, hnew⟩⟩ := updateModule_returns_cases g d m hr
  · have : g.updateModule d m = (g, .returns ()) := by simp [updateModule, hd, hm]
    rw [this]; exact h
  · have hc : c < g.heap.length := hwf.1 _ (mapGet_mem _ _ _ hd)
    have hP : ∀ y, y < g.heap.length → ∀ x, y ∈ g.reasons x ↔ (g.deref y).module = x := by
      intro y hy x
      rw [← getReasons_snd]
      exact h y hy x
    intro y hy x
    have hy' : y < g.heap.length := by
      rw [updateModule_move g d m c oldSet newSet hd hne hold hnew] at hy
      simpa using hy
    rw [getReasons_snd, updateModule_move_reasons g d m c oldSet newSet hd hne hold hnew,
      updateModule_move_deref g d m c oldSet newSet hd hne hold hnew hc]
    by_cases hyc : y = c
    · subst hyc
      simp only [if_true]
      by_cases hx : x = m
      · subst hx
        simp [mem_setAdd]
      · simp only [hx, if_false]
        by_cases hx' : x = (g.deref y).module
        · simp only [hx', if_true, mem_setDelete]
          exact ⟨fun h' => absurd rfl h'.2, fun h' => absurd h'.symm hne⟩
        · simp only [hx', if_false]
          rw [hP y hy' x]
          exact ⟨fun h' => absurd h'.symm hx', fun h' => absurd h'.symm hx⟩
    · simp only [hyc, if_false]
      rw [← hP y hy' x]
      by_cases hx : x = m
      · subst hx
        simp only [if_true, mem_setAdd]
        exact ⟨fun h' => h'.resolve_right hyc, Or.inl⟩
      · simp only [hx, if_false]
        by_cases hx' : x = (g.deref c).module
        · simp only [hx', if_true, mem_setDelete]
          exact ⟨fun h' => h'.1, fun h' => ⟨h', hyc⟩⟩
        · simp only [hx', if_false]

end ModuleGraph
end ModuleGraphJs

namespace ModuleGraphJs

namespace ModuleGraph

theorem WF_P2_call (g : ModuleGraph) (k : Call) (hwf : g.WF) (h : g.P2)
    (hr : (g.call k).2 = true) : (g.call k).1.WF ∧ (g.call k).1.P2 := by
  cases k with
  | setResolvedModule o d m =>
    exact ⟨WF_setResolvedModule g o d m hwf, P2_setResolvedModule g o d m hwf h⟩
  | updateModule d m => exact ⟨WF_updateModule g d m hwf hr, P2_updateModule g d m hwf h hr⟩
  | addExtraReason m e => exact ⟨WF_addExtraReason g m e hwf, P2_addExtraReason g m e hwf h⟩
  | getResolvedModule d => exact ⟨hwf, h⟩
  | getModule d => exact ⟨hwf, h⟩
  | getReasons m => exact ⟨WF_getReasons g m hwf, P2_getReasons g m h⟩
  | getMeta t =>
    have hg : (g.call (.getMeta t)).1.heap = g.heap ∧
        (g.call (.getMeta t)).1._dependencyMap = g._dependencyMap ∧
        (g.call (.getMeta t)).1._moduleMap = g._moduleMap := by
      simp only [call, getMeta]
      split <;> exact ⟨rfl, rfl, rfl⟩
    constructor
    · unfold WF
      rw [hg.1, hg.2.1, hg.2.2]
      exact hwf
    · intro c hc m
      rw [hg.1] at hc
      have h1 : ((g.call (.getMeta t)).1.getReasons m).2 = (g.getReasons m).2 := by
        simp only [getReasons_snd, reasons, hg.2.2]
      have h2 : (g.call (.getMeta t)).1.deref c = g.deref c := deref_eq_of_heap hg.1 c
      rw [h1, h2]
      exact h c hc m

/-- Reverse-index consistency along calls that return: from a graph whose
references are allocated and that satisfies P2, a sequence of calls each of
which returns leads to a graph with the same two properties. -/
theorem WF_P2_callAll (ks : List Call) (g : ModuleGraph) (hwf : g.WF) (h : g.P2)
    (hr : g.allReturn ks = true) : (g.callAll ks).WF ∧ (g.callAll ks).P2 := by
  induction ks generalizing g with
  | nil => exact ⟨hwf, h⟩
  | cons k ks ih =>
    simp only [allReturn, Bool.and_eq_true] at hr
    obtain ⟨h1, h2⟩ := WF_P2_call g k hwf h hr.1
    exact ih (g.call k).1 h1 h2 hr.2

/-- Reverse-index consistency (R1 and P2) of every graph reached from a fresh
one by calls that all return. -/
theorem R1_after_returning_calls (ks : List Call) (hr : ModuleGraph.new.allReturn ks = true) :
    (ModuleGraph.new.callAll ks).R1 ∧ (ModuleGraph.new.callAll ks).P2 := by
  have h := WF_P2_callAll ks ModuleGraph.new (by decide)
    (fun c hc => absurd hc (Nat.not_lt_zero c)) hr
  exact ⟨(R1_iff_P2 _).2 h.2, h.2⟩

end ModuleGraph
end ModuleGraphJs

namespace ModuleGraphJs

namespace ModuleGraph

/-! ## Read paths -/

theorem reasons_eq_nil_of_no_member (g : ModuleGraph) (m : Module)
    (h : ∀ c, c ∉ g.reasons m) : g.reasons m = [] :=
  List.eq_nil_iff_forall_not_mem.2 h

theorem getMeta_fresh (g : ModuleGraph) (k : Thing) (h : mapGet g._metaMap k = none) :
    g.getMeta k =
      ({ g with metaHeap := g.metaHeap ++ [[]],
                _metaMap := mapSet g._metaMap k g.metaHeap.length }, g.metaHeap.length) := by
  simp [getMeta, h]

theorem getMeta_known (g : ModuleGraph) (k : Thing) (r : MetaRef)
    (h : mapGet g._metaMap k = some r) : g.getMeta k = (g, r) := by
  simp [getMeta, h]

end ModuleGraph

open ModuleGraph

/-- C11 (read paths never fail on unknown keys): `getResolvedModule(d)` and
`getModule(d)` return `null` for a reference without connection;
`getReasons(m)` returns an empty array for a module without reverse-set entry
and, on a graph whose reverse sets hold only connections that target them,
for a module that no connection targets; `getMeta(k)` for a key not seen
before returns a newly created record without fields. Each of the four calls
returns (none throws). -/
theorem C11_reads_of_unknown_keys_return_absent (g : ModuleGraph) (d : Dependency)
    (m m' : Module) (k : Thing) (hd : mapGet g._dependencyMap d = none)
    (hm' : mapGet g._moduleMap m' = none)
    (hagree : g.TargetsAgree) (hm : ∀ c, c < g.heap.length → (g.deref c).module ≠ m)
    (hk : mapGet g._metaMap k = none) :
    g.getResolvedModule d = none ∧ g.getModule d = none ∧
    (g.getReasons m').2 = [] ∧
    (g.getReasons m).2 = [] ∧
    (g.getMeta k).1.metaHeap[(g.getMeta k).2]? = some [] ∧
    (g.getMeta k).2 = g.metaHeap.length ∧
    (g.call (.getResolvedModule d)).2 = true ∧ (g.call (.getModule d)).2 = true ∧
    (g.call (.getReasons m)).2 = true ∧ (g.call (.getMeta k)).2 = true := by
  refine ⟨by simp [getResolvedModule, hd], by simp [getModule, hd], ?_, ?_, ?_, ?_,
    rfl, rfl, rfl, rfl⟩
  · rw [getReasons_snd]; simp [reasons, hm']
  · rw [getReasons_snd]
    apply reasons_eq_nil_of_no_member
    intro c hc
    have h := hagree m (mem_reasons_key hc) c hc
    exact hm c h.1 h.2
  · rw [getMeta_fresh g k hk]
    simp
  · rw [getMeta_fresh g k hk]

/-- Witness of C11 on the graph built by `setResolvedModule(0, 0, 1)`. -/
theorem C11_reads_of_unknown_keys_return_absent_witness :
    (ModuleGraph.new.setResolvedModule 0 0 1).1.TargetsAgree ∧
    mapGet (ModuleGraph.new.setResolvedModule 0 0 1).1._dependencyMap 4 = none ∧
    (ModuleGraph.new.setResolvedModule 0 0 1).1.getResolvedModule 4 = none ∧
    ((ModuleGraph.new.setResolvedModule 0 0 1).1.getReasons 0).2 = [] :=
  ⟨by decide, by decide,
    (C11_reads_of_unknown_keys_return_absent (ModuleGraph.new.setResolvedModule 0 0 1).1 4 0 3
      (.module 1) (by decide) (by decide) (by decide)
      (fun c hc => by
        have h0 : c = 0 := by
          have : c < 1 := hc
          omega
        subst h0
        decide)
      (by decide)).1,
    (C11_reads_of_unknown_keys_return_absent (ModuleGraph.new.setResolvedModule 0 0 1).1 4 0 3
      (.module 1) (by decide) (by decide) (by decide)
      (fun c hc => by
        have h0 : c = 0 := by
          have : c < 1 := hc
          omega
        subst h0
        decide)
      (by decide)).2.2.2.1⟩

/-- C15 (the two getters are one function): in every graph, reachable or
not, `getModule(d)` equals `getResolvedModule(d)`, and both are the
`resolvedModule` field of the connection of `d`, or `null` when `d` has no
connection. -/
theorem C15_getModule_is_getResolvedModule (g : ModuleGraph) (d : Dependency) :
    g.getModule d = g.getResolvedModule d ∧
    g.getModule d = g.resolvedModuleOf d ∧
    g.getResolvedModule d = g.resolvedModuleOf d := by
  have h : g.getResolvedModule d = g.resolvedModuleOf d := by
    unfold getResolvedModule resolvedModuleOf
    cases mapGet g._dependencyMap d <;> rfl
  exact ⟨rfl, h, h⟩

end ModuleGraphJs

namespace ModuleGraphJs

open ModuleGraph

/-- C14 (effect of `setResolvedModule`): for every reference `d`, in
particular one without connection, on a graph whose references are
allocated, the call returns and
allocates exactly one connection, with `originModule = o`, `dependency = d`,
`resolvedModule = module = m` and no explanation; the forward map holds it
under `d`; the reverse set of `m` exists afterwards and is the former one
with the new connection appended; `getReasons(x)` for `x != m` and the
forward entries of the other references are unchanged. On a fresh graph,
after `setResolvedModule(A, r1, B)` (`A = 0`, `r1 = 0`, `B = 1`),
`getReasons(B)` is the one connection `(A, r1, B)` and `getReasons(A)` is
empty. -/
theorem C14_setResolvedModule_effect (g : ModuleGraph) (o : Module) (d : Dependency)
    (m : Module) (hwf : g.WF) :
    (g.setResolvedModule o d m).2 = .returns () ∧
    (g.setResolvedModule o d m).1.heap =
      g.heap ++ [{ originModule := some o, dependency := some d, resolvedModule := m,
                   module := m, explanation := none }] ∧
    mapGet (g.setResolvedModule o d m).1._dependencyMap d = some g.heap.length ∧
    (mapGet (g.setResolvedModule o d m).1._moduleMap m).isSome = true ∧
    ((g.setResolvedModule o d m).1.getReasons m).2 = (g.getReasons m).2 ++ [g.heap.length] ∧
    (∀ x, x ≠ m → ((g.setResolvedModule o d m).1.getReasons x).2 = (g.getReasons x).2) ∧
    (∀ d', d' ≠ d →
      mapGet (g.setResolvedModule o d m).1._dependencyMap d' = mapGet g._dependencyMap d') ∧
    ((ModuleGraph.new.setResolvedModule 0 0 1).1.getReasons 1).2 = [0] ∧
    (ModuleGraph.new.setResolvedModule 0 0 1).1.deref 0 =
      { originModule := some 0, dependency := some 0, resolvedModule := 1, module := 1,
        explanation := none } ∧
    ((ModuleGraph.new.setResolvedModule 0 0 1).1.getReasons 0).2 = [] := by
  refine ⟨rfl, setResolvedModule_heap g o d m, ?_, ?_, ?_, ?_, ?_, by decide, by decide,
    by decide⟩
  · rw [setResolvedModule_dependencyMap, mapGet_mapSet_self]
  · simp [setResolvedModule, mapGet_mapSet_self]
  · rw [getReasons_snd, getReasons_snd, setResolvedModule_reasons, if_pos rfl]
    exact setAdd_fresh _ _ (fun h => Nat.lt_irrefl _ (reasons_lt_of_WF hwf m _ h))
  · intro x hx
    rw [getReasons_snd, getReasons_snd, setResolvedModule_reasons, if_neg hx]
  · intro d' hd'
    rw [setResolvedModule_dependencyMap, mapGet_mapSet_ne _ _ hd']

/-- Witness of C14: `setResolvedModule(3, 7, 1)` after `addExtraReason(1, "entry")`. -/
theorem C14_setResolvedModule_effect_witness :
    (ModuleGraph.new.addExtraReason 1 "entry").1.WF ∧
    mapGet (ModuleGraph.new.addExtraReason 1 "entry").1._dependencyMap 7 = none ∧
    (((ModuleGraph.new.addExtraReason 1 "entry").1.setResolvedModule 3 7 1).1.getReasons 1).2
      = [0, 1] :=
  ⟨by decide, by decide,
    (C14_setResolvedModule_effect (ModuleGraph.new.addExtraReason 1 "entry").1 3 7 1
      (by decide)).2.2.2.2.1.trans (by decide)⟩

end ModuleGraphJs

namespace ModuleGraphJs

namespace ModuleGraph

/-! ## The metadata store -/

theorem setResolvedModule_meta (g : ModuleGraph) (o : Module) (d : Dependency) (m : Module) :
    (g.setResolvedModule o d m).1._metaMap = g._metaMap ∧
    (g.setResolvedModule o d m).1.metaHeap = g.metaHeap := by
  simp [setResolvedModule, getModuleSet_metaMap]

theorem addExtraReason_meta (g : ModuleGraph) (m : Module) (e : String) :
    (g.addExtraReason m e).1._metaMap = g._metaMap ∧
    (g.addExtraReason m e).1.metaHeap = g.metaHeap := by
  simp [addExtraReason, getModuleSet_metaMap]

theorem updateModule_meta (g : ModuleGraph) (d : Dependency) (m : Module) :
    (g.updateModule d m).1._metaMap = g._metaMap ∧
    (g.updateModule d m).1.metaHeap = g.metaHeap := by
  unfold updateModule
  split
  · exact ⟨rfl, rfl⟩
  · split
    · exact ⟨rfl, rfl⟩
    · split
      · exact ⟨rfl, rfl⟩
      · dsimp only
        split <;> exact ⟨rfl, rfl⟩

theorem getReasons_meta (g : ModuleGraph) (m : Module) :
    (g.getReasons m).1._metaMap = g._metaMap ∧ (g.getReasons m).1.metaHeap = g.metaHeap :=
  getModuleSet_metaMap g m

theorem getMeta_graph (g : ModuleGraph) (k : Thing) :
    (g.getMeta k).1.heap = g.heap ∧ (g.getMeta k).1._dependencyMap = g._dependencyMap ∧
    (g.getMeta k).1._moduleMap = g._moduleMap := by
  unfold getMeta
  split <;> exact ⟨rfl, rfl, rfl⟩

theorem getElem?_append_of_some {α : Type} (l : List α) (x a : α) (i : Nat)
    (h : l[i]? = some a) : (l ++ [x])[i]? = some a := by
  have hi : i < l.length := by
    by_contra hn
    rw [List.getElem?_eq_none (Nat.le_of_not_lt hn)] at h
    cases h
  rw [List.getElem?_append_left hi, h]

theorem getMeta_stable (g : ModuleGraph) (t key : Thing) (r : MetaRef) (rec : MetaRecord)
    (hk : mapGet g._metaMap key = some r) (hr : g.metaHeap[r]? = some rec) :
    mapGet (g.getMeta t).1._metaMap key = some r ∧ (g.getMeta t).1.metaHeap[r]? = some rec := by
  cases ht : mapGet g._metaMap t with
  | some r' => rw [getMeta_known g t r' ht]; exact ⟨hk, hr⟩
  | none =>
    rw [getMeta_fresh g t ht]
    have hne : key ≠ t := by
      intro h
      rw [h, ht] at hk
      cases hk
    exact ⟨by simp only [mapGet_mapSet_ne _ _ hne, hk], getElem?_append_of_some _ _ _ _ hr⟩

theorem call_meta_stable (g : ModuleGraph) (c : Call) (key : Thing) (r : MetaRef)
    (rec : MetaRecord) (hk : mapGet g._metaMap key = some r) (hr : g.metaHeap[r]? = some rec) :
    mapGet (g.call c).1._metaMap key = some r ∧ (g.call c).1.metaHeap[r]? = some rec := by
  cases c with
  | setResolvedModule o d m =>
    simp only [call, (setResolvedModule_meta g o d m).1, (setResolvedModule_meta g o d m).2]
    exact ⟨hk, hr⟩
  | updateModule d m =>
    simp only [call, (updateModule_meta g d m).1, (updateModule_meta g d m).2]
    exact ⟨hk, hr⟩
  | addExtraReason m e =>
    simp only [call, (addExtraReason_meta g m e).1, (addExtraReason_meta g m e).2]
    exact ⟨hk, hr⟩
  | getResolvedModule d => exact ⟨hk, hr⟩
  | getModule d => exact ⟨hk, hr⟩
  | getReasons m =>
    simp only [call, (getReasons_meta g m).1, (getReasons_meta g m).2]
    exact ⟨hk, hr⟩
  | getMeta t => exact getMeta_stable g t key r rec hk hr

theorem callAll_meta_stable (ks : List Call) (g : ModuleGraph) (key : Thing) (r : MetaRef)
    (rec : MetaRecord) (hk : mapGet g._metaMap key = some r) (hr : g.metaHeap[r]? = some rec) :
    mapGet (g.callAll ks)._metaMap key = some r ∧ (g.callAll ks).metaHeap[r]? = some rec := by
  induction ks generalizing g with
  | nil => exact ⟨hk, hr⟩
  | cons c ks ih =>
    obtain ⟨h1, h2⟩ := call_meta_stable g c key r rec hk hr
    exact ih (g.call c).1 h1 h2

theorem getMeta_ref_lt (g : ModuleGraph) (k : Thing) (hwf : ∀ e ∈ g._metaMap, e.2 < g.metaHeap.length) :
    (g.getMeta k).2 < (g.getMeta k).1.metaHeap.length ∧
    mapGet (g.getMeta k).1._metaMap k = some (g.getMeta k).2 := by
  cases hk : mapGet g._metaMap k with
  | some r =>
    rw [getMeta_known g k r hk]
    exact ⟨hwf _ (mapGet_mem _ _ _ hk), hk⟩
  | none =>
    rw [getMeta_fresh g k hk]
    simp [mapGet_mapSet_self]

theorem metaRead_of_getElem? (g : ModuleGraph) (r : MetaRef) (rec : MetaRecord) (f : String)
    (h : g.metaHeap[r]? = some rec) : g.metaRead r f = mapGet rec f := by
  simp [metaRead, List.getD_eq_getElem?_getD, h]

theorem metaWrite_getElem? (g : ModuleGraph) (r : MetaRef) (f : String) (v : Nat)
    (hr : r < g.metaHeap.length) :
    (g.metaWrite r f v).metaHeap[r]? = some (mapSet (g.metaHeap.getD r []) f v) := by
  simp [metaWrite, List.getElem?_set, hr]

theorem metaWrite_getElem?_ne (g : ModuleGraph) (r r' : MetaRef) (f : String) (v : Nat)
    (hne : r ≠ r') : (g.metaWrite r f v).metaHeap[r']? = g.metaHeap[r']? := by
  simp [metaWrite, List.getElem?_set, hne]

end ModuleGraph
end ModuleGraphJs

namespace ModuleGraphJs

open ModuleGraph

/-- C12 (metadata identity, P6): on a graph whose metadata references are
allocated, take the record returned by `getMeta(k)`, write value `v` to its
field `f`, and then make any calls of the methods. A later `getMeta(k)`
returns the same record object, creates nothing (the graph is the same
before and after that call), and field `f` read through it is `v`. The first
`getMeta(k)` appends one empty record to the store when `k` has none, and
nothing otherwise. -/
theorem C12_getMeta_returns_same_record (g : ModuleGraph) (k : Thing) (f : String) (v : Nat)
    (ks : List Call) (hwf : g.MetaWF) :
    ((((g.getMeta k).1.metaWrite (g.getMeta k).2 f v).callAll ks).getMeta k).2
      = (g.getMeta k).2 ∧
    ((((g.getMeta k).1.metaWrite (g.getMeta k).2 f v).callAll ks).getMeta k).1
      = ((g.getMeta k).1.metaWrite (g.getMeta k).2 f v).callAll ks ∧
    ((((g.getMeta k).1.metaWrite (g.getMeta k).2 f v).callAll ks).getMeta k).1.metaRead
      ((((g.getMeta k).1.metaWrite (g.getMeta k).2 f v).callAll ks).getMeta k).2 f = some v ∧
    (g.getMeta k).1.metaHeap =
      (if (mapGet g._metaMap k).isSome then g.metaHeap else g.metaHeap ++ [[]]) ∧
    ((g.getMeta k).1.metaRead (g.getMeta k).2 f =
      if (mapGet g._metaMap k).isSome then g.metaRead (g.getMeta k).2 f else none) := by
  obtain ⟨hlt, hmap⟩ := getMeta_ref_lt g k hwf.1
  have h2 := metaWrite_getElem? (g.getMeta k).1 (g.getMeta k).2 f v hlt
  have hmap2 : mapGet ((g.getMeta k).1.metaWrite (g.getMeta k).2 f v)._metaMap k
      = some (g.getMeta k).2 := hmap
  obtain ⟨h3, h4⟩ := callAll_meta_stable ks _ k _ _ hmap2 h2
  have h5 := getMeta_known _ k _ h3
  refine ⟨by rw [h5], by rw [h5], ?_, ?_, ?_⟩
  · rw [h5]
    rw [metaRead_of_getElem? _ _ _ f h4, mapGet_mapSet_self]
  · cases hk : mapGet g._metaMap k with
    | some r => rw [getMeta_known g k r hk]; rfl
    | none => rw [getMeta_fresh g k hk]; rfl
  · cases hk : mapGet g._metaMap k with
    | some r => rw [getMeta_known g k r hk]; rfl
    | none =>
      rw [getMeta_fresh g k hk]
      simp [metaRead, mapGet]

/-- Witness of C12: key `module 1`, field `"used"`, with `setResolvedModule`,
a throwing `updateModule` and `getMeta` of another key in between. -/
theorem C12_getMeta_returns_same_record_witness :
    ModuleGraph.new.MetaWF ∧
    ((((ModuleGraph.new.getMeta (.module 1)).1.metaWrite
        (ModuleGraph.new.getMeta (.module 1)).2 "used" 5).callAll
      [.setResolvedModule 0 0 1, .updateModule 0 2, .getMeta (.dependency 1)]).getMeta
        (.module 1)).2 = 0 :=
  ⟨by decide,
    (C12_getMeta_returns_same_record ModuleGraph.new (.module 1) "used" 5
      [.setResolvedModule 0 0 1, .updateModule 0 2, .getMeta (.dependency 1)]
      (by decide)).1.trans (by decide)⟩

end ModuleGraphJs

namespace ModuleGraphJs

namespace ModuleGraph

theorem getMeta_read_congr {g g' : ModuleGraph} (hm : g'._metaMap = g._metaMap)
    (hh : g'.metaHeap = g.metaHeap) (key : Thing) (f : String) :
    (g'.getMeta key).2 = (g.getMeta key).2 ∧
    (g'.getMeta key).1.metaRead (g'.getMeta key).2 f =
      (g.getMeta key).1.metaRead (g.getMeta key).2 f := by
  cases hk : mapGet g._metaMap key with
  | some r =>
    have hk' : mapGet g'._metaMap key = some r := by rw [hm, hk]
    rw [getMeta_known g key r hk, getMeta_known g' key r hk']
    simp [metaRead, hh]
  | none =>
    have hk' : mapGet g'._metaMap key = none := by rw [hm, hk]
    rw [getMeta_fresh g key hk, getMeta_fresh g' key hk']
    simp [metaRead, hh]

theorem getMeta_other_key_ref (g : ModuleGraph) (k₁ k₂ : Thing) (hne : k₁ ≠ k₂) (r₁ : MetaRef)
    (hwf : g.MetaWF) (h₁ : mapGet g._metaMap k₁ = some r₁) :
    (g.getMeta k₂).2 ≠ r₁ := by
  cases h₂ : mapGet g._metaMap k₂ with
  | some r₂ =>
    rw [getMeta_known g k₂ r₂ h₂]
    intro h
    exact hne (hwf.2 _ (mapGet_mem _ _ _ h₁) _ (mapGet_mem _ _ _ h₂) h.symm)
  | none =>
    rw [getMeta_fresh g k₂ h₂]
    exact Nat.ne_of_gt (hwf.1 _ (mapGet_mem _ _ _ h₁))

theorem MetaWF_getMeta (g : ModuleGraph) (k : Thing) (hwf : g.MetaWF) : (g.getMeta k).1.MetaWF := by
  cases hk : mapGet g._metaMap k with
  | some r => rw [getMeta_known g k r hk]; exact hwf
  | none =>
    rw [getMeta_fresh g k hk]
    constructor
    · intro e he
      simp only [List.length_append, List.length_singleton]
      rcases mem_mapSet _ _ _ _ he with h | h
      · simp [h]
      · exact Nat.lt_succ_of_lt (hwf.1 e h)
    · intro e₁ he₁ e₂ he₂ heq
      rcases mem_mapSet _ _ _ _ he₁ with h₁ | h₁ <;> rcases mem_mapSet _ _ _ _ he₂ with h₂ | h₂
      · rw [h₁, h₂]
      · rw [h₁] at heq
        exact absurd heq (Nat.ne_of_gt (hwf.1 e₂ h₂))
      · rw [h₂] at heq
        exact absurd heq (Nat.ne_of_lt (hwf.1 e₁ h₁))
      · exact hwf.2 e₁ h₁ e₂ h₂ heq

end ModuleGraph

open ModuleGraph

/-- C20 (metadata isolation). On a graph whose metadata references are
allocated and distinct per key, for keys `k1 != k2`: writing field `f` of the
record returned by `getMeta(k1)` changes neither the record that
`getMeta(k2)` returns nor any field `f'` read through it. `getMeta(k)`
changes no result of `getResolvedModule`, `getModule` or `getReasons`.
`setResolvedModule`, `updateModule` (returning or throwing), `addExtraReason`
and `getReasons` leave `_metaMap` and every metadata record as they were, so
`getMeta(key)` returns the same record with the same fields after them, for
every key, a key that is the module or reference of the call included. -/
theorem C20_metadata_is_isolated (g : ModuleGraph) (k₁ k₂ : Thing) (f : String) (v : Nat)
    (hwf : g.MetaWF) (hne : k₁ ≠ k₂) :
    (∀ f', (((g.getMeta k₁).1.metaWrite (g.getMeta k₁).2 f v).getMeta k₂).2
        = ((g.getMeta k₁).1.getMeta k₂).2 ∧
      (((g.getMeta k₁).1.metaWrite (g.getMeta k₁).2 f v).getMeta k₂).1.metaRead
        (((g.getMeta k₁).1.metaWrite (g.getMeta k₁).2 f v).getMeta k₂).2 f'
        = ((g.getMeta k₁).1.getMeta k₂).1.metaRead ((g.getMeta k₁).1.getMeta k₂).2 f') ∧
    (∀ (k : Thing) (d : Dependency) (m : Module),
      (g.getMeta k).1.getResolvedModule d = g.getResolvedModule d ∧
      (g.getMeta k).1.getModule d = g.getModule d ∧
      ((g.getMeta k).1.getReasons m).2 = (g.getReasons m).2) ∧
    (∀ (o : Module) (d : Dependency) (m : Module) (e : String),
      ((g.setResolvedModule o d m).1._metaMap = g._metaMap ∧
        (g.setResolvedModule o d m).1.metaHeap = g.metaHeap) ∧
      ((g.updateModule d m).1._metaMap = g._metaMap ∧
        (g.updateModule d m).1.metaHeap = g.metaHeap) ∧
      ((g.addExtraReason m e).1._metaMap = g._metaMap ∧
        (g.addExtraReason m e).1.metaHeap = g.metaHeap) ∧
      ((g.getReasons m).1._metaMap = g._metaMap ∧
        (g.getReasons m).1.metaHeap = g.metaHeap)) ∧
    (∀ (o : Module) (d : Dependency) (m : Module) (e : String) (key : Thing) (f' : String),
      (g.setResolvedModule o d m).1.metaRead ((g.setResolvedModule o d m).1.getMeta key).2 f'
        = g.metaRead (g.getMeta key).2 f' ∧
      (g.updateModule d m).1.metaRead ((g.updateModule d m).1.getMeta key).2 f'
        = g.metaRead (g.getMeta key).2 f' ∧
      (g.addExtraReason m e).1.metaRead ((g.addExtraReason m e).1.getMeta key).2 f'
        = g.metaRead (g.getMeta key).2 f' ∧
      (g.getReasons m).1.metaRead ((g.getReasons m).1.getMeta key).2 f'
        = g.metaRead (g.getMeta key).2 f') := by
  refine ⟨?_, ?_, ?_, ?_⟩
  · intro f'
    obtain ⟨hlt, hmap⟩ := getMeta_ref_lt g k₁ hwf.1
    have hwf1 : (g.getMeta k₁).1.MetaWF := MetaWF_getMeta g k₁ hwf
    have hr2 : ((g.getMeta k₁).1.getMeta k₂).2 ≠ (g.getMeta k₁).2 :=
      getMeta_other_key_ref _ k₁ k₂ hne _ hwf1 hmap
    cases h₂ : mapGet (g.getMeta k₁).1._metaMap k₂ with
    | some r₂ =>
      have h₂' : mapGet ((g.getMeta k₁).1.metaWrite (g.getMeta k₁).2 f v)._metaMap k₂
          = some r₂ := h₂
      rw [getMeta_known _ k₂ r₂ h₂] at hr2 ⊢
      rw [getMeta_known _ k₂ r₂ h₂']
      refine ⟨rfl, ?_⟩
      simp only [metaRead, List.getD_eq_getElem?_getD,
        metaWrite_getElem?_ne _ _ _ f v (Ne.symm hr2)]
    | none =>
      have h₂' : mapGet ((g.getMeta k₁).1.metaWrite (g.getMeta k₁).2 f v)._metaMap k₂
          = none := h₂
      rw [getMeta_fresh _ k₂ h₂]
      rw [getMeta_fresh _ k₂ h₂']
      simp [metaRead, metaWrite]
  · intro k d m
    obtain ⟨hh, hd, hm⟩ := getMeta_graph g k
    have h : ∀ d, (g.getMeta k).1.getResolvedModule d = g.getResolvedModule d :=
      getResolvedModule_eq_of hd (fun e _ => congrArg _ (deref_eq_of_heap hh e.2))
    refine ⟨h d, h d, ?_⟩
    simp only [getReasons_snd, reasons, hm]
  · intro o d m e
    exact ⟨setResolvedModule_meta g o d m, updateModule_meta g d m, addExtraReason_meta g m e,
      getReasons_meta g m⟩
  · intro o d m e key f'
    have aux : ∀ g' : ModuleGraph, g'._metaMap = g._metaMap → g'.metaHeap = g.metaHeap →
        g'.metaRead (g'.getMeta key).2 f' = g.metaRead (g.getMeta key).2 f' := by
      intro g' hm hh
      rw [(getMeta_read_congr hm hh key f').1]
      simp [metaRead, hh]
    exact ⟨aux _ (setResolvedModule_meta g o d m).1 (setResolvedModule_meta g o d m).2,
      aux _ (updateModule_meta g d m).1 (updateModule_meta g d m).2,
      aux _ (addExtraReason_meta g m e).1 (addExtraReason_meta g m e).2,
      aux _ (getReasons_meta g m).1 (getReasons_meta g m).2⟩

/-- Witness of C20: keys `module 1` and `dependency 1` on a graph where
`module 1` already has a record. -/
theorem C20_metadata_is_isolated_witness :
    (ModuleGraph.new.getMeta (.module 1)).1.MetaWF ∧
    (Thing.module 1 ≠ Thing.dependency 1) ∧
    ((ModuleGraph.new.getMeta (.module 1)).1.setResolvedModule 0 1 1).1._metaMap
      = [(.module 1, 0)] :=
  ⟨by decide, by decide,
    ((C20_metadata_is_isolated (ModuleGraph.new.getMeta (.module 1)).1 (.module 1)
      (.dependency 1) "used" 5 (by decide) (by decide)).2.2.1 0 1 1 "entry").1.1.trans
      (by decide)⟩

end ModuleGraphJs

namespace ModuleGraphJs

namespace ModuleGraph

/-! ## Overwriting a reference, and when `updateModule` returns -/

theorem isSome_mapGet_mapSet {κ ν : Type} [DecidableEq κ] (l : List (κ × ν)) (k x : κ) (v : ν) :
    (mapGet (mapSet l k v) x).isSome = (decide (x = k) || (mapGet l x).isSome) := by
  by_cases h : x = k
  · subst h; simp [mapGet_mapSet_self]
  · simp [mapGet_mapSet_ne _ _ h, h]

theorem updateModule_keys (g : ModuleGraph) (d : Dependency) (m x : Module) :
    (mapGet (g.updateModule d m).1._moduleMap x).isSome = (mapGet g._moduleMap x).isSome := by
  unfold updateModule
  split
  · rfl
  · split
    · rfl
    · split
      · rfl
      · rename_i c _ hne _ oldSet hold
        have h1 : (mapGet (mapSet g._moduleMap (g.deref c).module (setDelete oldSet c)) x).isSome
            = (mapGet g._moduleMap x).isSome := by
          rw [isSome_mapGet_mapSet]
          by_cases hx : x = (g.deref c).module
          · subst hx; simp [hold]
          · simp [hx]
        dsimp only
        split
        · exact h1
        · rename_i newSet hnew
          dsimp only
          rw [isSome_mapGet_mapSet]
          by_cases hx : x = m
          · subst hx
            rw [← h1]
            simp [hnew]
          · simp [hx, h1]

theorem returns_of_entry (g : ModuleGraph) (d : Dependency) (m : Module) (c : ConnRef)
    (hwf : g.WF) (hP : g.P2) (hd : mapGet g._dependencyMap d = some c)
    (hm : (g.deref c).module = m ∨ (mapGet g._moduleMap m).isSome = true) :
    (g.updateModule d m).2.isReturn = true := by
  by_cases heq : (g.deref c).module = m
  · simp [updateModule, hd, heq, Completion.isReturn]
  · have hsome := hm.resolve_left heq
    have hc : c < g.heap.length := hwf.1 _ (mapGet_mem _ _ _ hd)
    have hin : c ∈ g.reasons (g.deref c).module := by
      rw [← getReasons_snd]
      exact (hP c hc _).2 rfl
    cases hold : mapGet g._moduleMap (g.deref c).module with
    | none => simp [reasons, hold] at hin
    | some oldSet =>
      cases hnew : mapGet g._moduleMap m with
      | none => simp [hnew] at hsome
      | some newSet =>
        rw [updateModule_move g d m c oldSet newSet hd heq hold hnew]
        rfl

end ModuleGraph

open ModuleGraph

/-- C16, as the code behaves: on a graph whose references are allocated and
that satisfies R1, when reference `d` already has a connection `c1` with
current target `m1`, a second `setResolvedModule(o2, d, m2)` overwrites the
forward entry of `d` with a new connection and leaves `c1` in the reverse set
of `m1`; the resulting graph still satisfies R1 (and P2): `c1` is in the
reverse set of its current target and in no other, and so is the new
connection. -/
theorem C16_overwrite_keeps_R1 (g : ModuleGraph) (o2 : Module) (d : Dependency)
    (m1 m2 : Module) (c1 : ConnRef) (hwf : g.WF) (hR1 : g.R1)
    (hd : mapGet g._dependencyMap d = some c1) (hm1 : (g.deref c1).module = m1) :
    mapGet (g.setResolvedModule o2 d m2).1._dependencyMap d = some g.heap.length ∧
    g.heap.length ≠ c1 ∧
    c1 ∈ ((g.setResolvedModule o2 d m2).1.getReasons m1).2 ∧
    ((g.setResolvedModule o2 d m2).1.deref c1).module = m1 ∧
    (∀ x, c1 ∈ ((g.setResolvedModule o2 d m2).1.getReasons x).2 → x = m1) ∧
    (g.setResolvedModule o2 d m2).1.R1 ∧
    (g.setResolvedModule o2 d m2).1.P2 := by
  have hc1 : c1 < g.heap.length := hwf.1 _ (mapGet_mem _ _ _ hd)
  have hP : g.P2 := (R1_iff_P2 g).1 hR1
  have hP' : (g.setResolvedModule o2 d m2).1.P2 := P2_setResolvedModule g o2 d m2 hwf hP
  have hc1' : c1 < (g.setResolvedModule o2 d m2).1.heap.length := by
    rw [setResolvedModule_heap]
    simp only [List.length_append, List.length_singleton]
    exact Nat.lt_succ_of_lt hc1
  have hderef : (g.setResolvedModule o2 d m2).1.deref c1 = g.deref c1 := by
    simp only [deref, setResolvedModule_heap, deref_append_lt _ _ _ hc1]
  refine ⟨?_, Nat.ne_of_gt hc1, ?_, by rw [hderef, hm1], ?_, (R1_iff_P2 _).2 hP', hP'⟩
  · rw [setResolvedModule_dependencyMap, mapGet_mapSet_self]
  · exact (hP' c1 hc1' m1).2 (by rw [hderef, hm1])
  · intro x hx
    have := (hP' c1 hc1' x).1 hx
    rw [hderef, hm1] at this
    exact this.symm

/-- Witness of the amended C16: `setResolvedModule(0, 0, 1)` and then
`setResolvedModule(5, 0, 2)`. -/
theorem C16_overwrite_keeps_R1_witness :
    (ModuleGraph.new.setResolvedModule 0 0 1).1.WF ∧
    (ModuleGraph.new.setResolvedModule 0 0 1).1.R1 ∧
    mapGet (ModuleGraph.new.setResolvedModule 0 0 1).1._dependencyMap 0 = some 0 ∧
    ((ModuleGraph.new.setResolvedModule 0 0 1).1.setResolvedModule 5 0 2).1.R1 :=
  ⟨by decide, by decide, by decide,
    (C16_overwrite_keeps_R1 (ModuleGraph.new.setResolvedModule 0 0 1).1 5 0 1 2 0
      (by decide) (by decide) (by decide) (by decide)).2.2.2.2.2.1⟩

/-- Counterexample to C16 as stated: the graph after `setResolvedModule(0, 0,
1)` satisfies R1 and reference `0` has connection `0` with target `1`; after
the overwriting `setResolvedModule(5, 0, 2)` connection `0` is still in the
reverse set of module `1`, and R1 is not violated: it holds. -/
theorem C16_counterexample_R1_holds_after_overwrite :
    (ModuleGraph.new.setResolvedModule 0 0 1).1.R1 ∧
    mapGet (ModuleGraph.new.setResolvedModule 0 0 1).1._dependencyMap 0 = some 0 ∧
    ((ModuleGraph.new.setResolvedModule 0 0 1).1.deref 0).module = 1 ∧
    (((ModuleGraph.new.setResolvedModule 0 0 1).1.setResolvedModule 5 0 2).1.getReasons 1).2
      = [0] ∧
    (((ModuleGraph.new.setResolvedModule 0 0 1).1.setResolvedModule 5 0 2).1.getReasons 2).2
      = [1] ∧
    ¬ ¬ ((ModuleGraph.new.setResolvedModule 0 0 1).1.setResolvedModule 5 0 2).1.R1 := by
  decide

end ModuleGraphJs

namespace ModuleGraphJs

namespace ModuleGraph

theorem getModuleSet_keys (g : ModuleGraph) (m x : Module) :
    (mapGet (g._getModuleSet m).1._moduleMap x).isSome =
      (decide (x = m) || (mapGet g._moduleMap x).isSome) := by
  unfold _getModuleSet
  split
  · rename_i s hs
    by_cases hx : x = m
    · subst hx; simp [hs]
    · simp [hx]
  · exact isSome_mapGet_mapSet _ _ _ _

theorem setResolvedModule_keys (g : ModuleGraph) (o : Module) (d : Dependency) (m x : Module) :
    (mapGet (g.setResolvedModule o d m).1._moduleMap x).isSome =
      (decide (x = m) || (mapGet g._moduleMap x).isSome) := by
  simp only [setResolvedModule, isSome_mapGet_mapSet, getModuleSet_keys]
  by_cases hx : x = m <;> simp [hx]

theorem addExtraReason_keys (g : ModuleGraph) (m : Module) (e : String) (x : Module) :
    (mapGet (g.addExtraReason m e).1._moduleMap x).isSome =
      (decide (x = m) || (mapGet g._moduleMap x).isSome) := by
  simp only [addExtraReason, isSome_mapGet_mapSet, getModuleSet_keys]
  by_cases hx : x = m <;> simp [hx]

theorem entry_created_by (g : ModuleGraph) (k : Call) (m : Module)
    (h0 : (mapGet g._moduleMap m).isSome = false)
    (h1 : (mapGet (g.call k).1._moduleMap m).isSome = true) :
    (∃ o d, k = .setResolvedModule o d m) ∨ (∃ e, k = .addExtraReason m e) ∨
      k = .getReasons m := by
  cases k with
  | setResolvedModule o d m' =>
    simp only [call, setResolvedModule_keys, h0, Bool.or_false, decide_eq_true_eq] at h1
    exact Or.inl ⟨o, d, by rw [h1]⟩
  | updateModule d m' =>
    simp only [call, updateModule_keys, h0] at h1
    cases h1
  | addExtraReason m' e =>
    simp only [call, addExtraReason_keys, h0, Bool.or_false, decide_eq_true_eq] at h1
    exact Or.inr (Or.inl ⟨e, by rw [h1]⟩)
  | getResolvedModule d => simp only [call, h0] at h1; cases h1
  | getModule d => simp only [call, h0] at h1; cases h1
  | getReasons m' =>
    simp only [call, getReasons, getModuleSet_keys, h0, Bool.or_false, decide_eq_true_eq] at h1
    exact Or.inr (Or.inr (by rw [h1]))
  | getMeta t =>
    simp only [call, (getMeta_graph g t).2.2, h0] at h1
    cases h1

end ModuleGraph

open ModuleGraph

/-- C17 (exact success condition of `updateModule`): in a graph reached from
a fresh one by calls that all returned, `updateModule(d, m)` returns exactly
when `d` has a connection in the forward map and `m` is its current target or
`m` has a reverse-set entry. After `getReasons(m)` the call returns for every
`d` that has a connection. A reverse-set entry for `m` that was missing
before a call and is present after it was created by
`setResolvedModule(_, _, m)`, `addExtraReason(m, _)` or `getReasons(m)`. -/
theorem C17_updateModule_returns_iff (ks : List Call) (d : Dependency) (m : Module)
    (hr : ModuleGraph.new.allReturn ks = true) :
    (((ModuleGraph.new.callAll ks).updateModule d m).2.isReturn = true ↔
      ∃ c, mapGet (ModuleGraph.new.callAll ks)._dependencyMap d = some c ∧
        (((ModuleGraph.new.callAll ks).deref c).module = m ∨
          (mapGet (ModuleGraph.new.callAll ks)._moduleMap m).isSome = true)) ∧
    (∀ c, mapGet (ModuleGraph.new.callAll ks)._dependencyMap d = some c →
      (((ModuleGraph.new.callAll ks).getReasons m).1.updateModule d m).2.isReturn = true) ∧
    (∀ k : Call, (mapGet (ModuleGraph.new.callAll ks)._moduleMap m).isSome = false →
      (mapGet ((ModuleGraph.new.callAll ks).call k).1._moduleMap m).isSome = true →
      (∃ o d', k = .setResolvedModule o d' m) ∨ (∃ e, k = .addExtraReason m e) ∨
        k = .getReasons m) := by
  obtain ⟨hwf, hP⟩ := WF_P2_callAll ks ModuleGraph.new (by decide)
    (fun c hc => absurd hc (Nat.not_lt_zero c)) hr
  refine ⟨⟨?_, ?_⟩, ?_, fun k h0 h1 => entry_created_by _ k m h0 h1⟩
  · intro h
    obtain ⟨c, hd, hm | ⟨_, _, newSet, _, hnew⟩⟩ := updateModule_returns_cases _ d m h
    · exact ⟨c, hd, Or.inl hm⟩
    · exact ⟨c, hd, Or.inr (by rw [hnew]; rfl)⟩
  · rintro ⟨c, hd, hm⟩
    exact returns_of_entry _ d m c hwf hP hd hm
  · intro c hd
    apply returns_of_entry _ d m c (WF_getReasons _ m hwf) (P2_getReasons _ m hP)
    · rw [getReasons, getModuleSet_dependencyMap]; exact hd
    · right
      rw [getReasons, getModuleSet_keys]
      simp

/-- Witness of C17: after `setResolvedModule(0, 0, 1)`, `updateModule(0, 2)`
throws, and returns once `getReasons(2)` has been called. -/
theorem C17_updateModule_returns_iff_witness :
    ModuleGraph.new.allReturn [.setResolvedModule 0 0 1] = true ∧
    ((ModuleGraph.new.callAll [.setResolvedModule 0 0 1]).updateModule 0 2).2.isReturn = false ∧
    (((ModuleGraph.new.callAll [.setResolvedModule 0 0 1]).getReasons 2).1.updateModule
      0 2).2.isReturn = true :=
  ⟨by decide, by decide,
    (C17_updateModule_returns_iff [.setResolvedModule 0 0 1] 0 2 (by decide)).2.1 0
      (by decide)⟩

end ModuleGraphJs

namespace ModuleGraphJs

namespace ModuleGraph

/-! ## Forward map and reverse sets agree -/

theorem getD_set_dependency (h : List ModuleGraphConnection) (c : ConnRef) (m : Module)
    (dflt : ModuleGraphConnection) (x : ConnRef) :
    ((h.set c { h.getD c dflt with module := m }).getD x dflt).dependency =
      (h.getD x dflt).dependency := by
  by_cases hx : c = x
  · subst hx
    by_cases hc : c < h.length
    · simp [List.getD_eq_getElem?_getD, List.getElem?_set, hc]
    · have hn : h[c]? = none := List.getElem?_eq_none (Nat.le_of_not_lt hc)
      simp [List.getD_eq_getElem?_getD, List.getElem?_set, hc, hn]
  · simp [List.getD_eq_getElem?_getD, List.getElem?_set, hx]

theorem updateModule_dependency (g : ModuleGraph) (d : Dependency) (m : Module) (x : ConnRef) :
    ((g.updateModule d m).1.deref x).dependency = (g.deref x).dependency := by
  unfold updateModule
  split
  · rfl
  · split
    · rfl
    · split
      · rfl
      · dsimp only
        split <;> exact getD_set_dependency _ _ _ _ _

theorem ForwardAgree_call (g : ModuleGraph) (k : Call) (hwf : g.WF) (h : g.ForwardAgree) :
    (g.call k).1.ForwardAgree := by
  cases k with
  | setResolvedModule o d m =>
    intro e he
    simp only [call, setResolvedModule_dependencyMap] at he
    simp only [call, deref, setResolvedModule_heap]
    rcases mem_mapSet _ _ _ _ he with h' | h'
    · rw [h', deref_append_length]
      rfl
    · rw [deref_append_lt _ _ _ (hwf.1 e h')]
      exact h e h'
  | updateModule d m =>
    intro e he
    simp only [call, updateModule_dependencyMap] at he
    simp only [call, updateModule_dependency]
    exact h e he
  | addExtraReason m x =>
    intro e he
    simp only [call, addExtraReason_dependencyMap] at he
    simp only [call, deref, addExtraReason_heap]
    rw [deref_append_lt _ _ _ (hwf.1 e he)]
    exact h e he
  | getResolvedModule d => exact h
  | getModule d => exact h
  | getReasons m =>
    intro e he
    simp only [call, getReasons, getModuleSet_dependencyMap] at he
    have hderef : (g.call (.getReasons m)).1.deref e.2 = g.deref e.2 :=
      deref_eq_of_heap (getModuleSet_heap g m) e.2
    rw [hderef]
    exact h e he
  | getMeta t =>
    intro e he
    simp only [call, (getMeta_graph g t).2.1] at he
    have hderef : (g.call (.getMeta t)).1.deref e.2 = g.deref e.2 :=
      deref_eq_of_heap (getMeta_graph g t).1 e.2
    rw [hderef]
    exact h e he

theorem ForwardAgree_callAll (ks : List Call) (g : ModuleGraph) (hwf : g.WF) (hP : g.P2)
    (h : g.ForwardAgree) (hr : g.allReturn ks = true) : (g.callAll ks).ForwardAgree := by
  induction ks generalizing g with
  | nil => exact h
  | cons k ks ih =>
    simp only [allReturn, Bool.and_eq_true] at hr
    obtain ⟨h1, h2⟩ := WF_P2_call g k hwf hP hr.1
    exact ih (g.call k).1 h1 h2 (ForwardAgree_call g k hwf h) hr.2

end ModuleGraph

open ModuleGraph

/-- C18 (forward/reverse agreement): in a graph reached from a fresh one by
calls of the methods that all returned, a connection `c` held by the forward
map under reference `d` has `dependency == d` and is a member of the reverse
set of its current target; and every member of a reverse set whose
`dependency` is not `null` has a reverse-set entry under its own current
target, which contains it. -/
theorem C18_forward_and_reverse_agree (ks : List Call)
    (hr : ModuleGraph.new.allReturn ks = true) :
    (∀ d c, mapGet (ModuleGraph.new.callAll ks)._dependencyMap d = some c →
      ((ModuleGraph.new.callAll ks).deref c).dependency = some d ∧
      c ∈ ((ModuleGraph.new.callAll ks).getReasons
        ((ModuleGraph.new.callAll ks).deref c).module).2) ∧
    (∀ m c, c ∈ ((ModuleGraph.new.callAll ks).getReasons m).2 →
      ((ModuleGraph.new.callAll ks).deref c).dependency ≠ none →
      (mapGet (ModuleGraph.new.callAll ks)._moduleMap
        ((ModuleGraph.new.callAll ks).deref c).module).isSome = true ∧
      c ∈ ((ModuleGraph.new.callAll ks).getReasons
        ((ModuleGraph.new.callAll ks).deref c).module).2) := by
  obtain ⟨hwf, hP⟩ := WF_P2_callAll ks ModuleGraph.new (by decide)
    (fun c hc => absurd hc (Nat.not_lt_zero c)) hr
  have hF := ForwardAgree_callAll ks ModuleGraph.new (by decide)
    (fun c hc => absurd hc (Nat.not_lt_zero c)) (by decide) hr
  constructor
  · intro d c hd
    have hmem := mapGet_mem _ _ _ hd
    exact ⟨hF _ hmem, (hP c (hwf.1 _ hmem) _).2 rfl⟩
  · intro m c hc _
    have hlt : c < (ModuleGraph.new.callAll ks).heap.length := by
      rw [getReasons_snd] at hc
      exact reasons_lt_of_WF hwf m c hc
    have hin := (hP c hlt _).2 rfl
    refine ⟨?_, hin⟩
    rw [getReasons_snd] at hin
    cases hm : mapGet (ModuleGraph.new.callAll ks)._moduleMap
        ((ModuleGraph.new.callAll ks).deref c).module with
    | none => simp [reasons, hm] at hin
    | some s => rfl

/-- Witness of C18: `setResolvedModule(0, 0, 1)`, `getReasons(2)`,
`updateModule(0, 2)`, `addExtraReason(2, "entry")`, `getMeta(module 2)`. -/
theorem C18_forward_and_reverse_agree_witness :
    ModuleGraph.new.allReturn [.setResolvedModule 0 0 1, .getReasons 2, .updateModule 0 2,
      .addExtraReason 2 "entry", .getMeta (.module 2)] = true ∧
    ((ModuleGraph.new.callAll [.setResolvedModule 0 0 1, .getReasons 2, .updateModule 0 2,
      .addExtraReason 2 "entry", .getMeta (.module 2)]).deref 0).dependency = some 0 :=
  ⟨by decide,
    ((C18_forward_and_reverse_agree [.setResolvedModule 0 0 1, .getReasons 2, .updateModule 0 2,
      .addExtraReason 2 "entry", .getMeta (.module 2)] (by decide)).1 0 0 (by decide)).1⟩

end ModuleGraphJs

namespace ModuleGraphJs

namespace ModuleGraph

/-! ## One connection per reference -/

theorem deref_dependency_lt (g : ModuleGraph) (c : ConnRef) (d : Dependency)
    (h : (g.deref c).dependency = some d) : c < g.heap.length := by
  by_contra hn
  have hnone : g.heap[c]? = none := List.getElem?_eq_none (Nat.le_of_not_lt hn)
  simp [deref, List.getD_eq_getElem?_getD, hnone, ModuleGraphConnection.new] at h

theorem owner_call (g : ModuleGraph) (k : Call)
    (hfresh : ∀ o d m, k = .setResolvedModule o d m → mapGet g._dependencyMap d = none)
    (h : ∀ c d, (g.deref c).dependency = some d → mapGet g._dependencyMap d = some c) :
    ∀ c d, ((g.call k).1.deref c).dependency = some d →
      mapGet (g.call k).1._dependencyMap d = some c := by
  cases k with
  | setResolvedModule o d₀ m =>
    intro c d hc
    have hlt := deref_dependency_lt _ c d hc
    simp only [call, setResolvedModule_heap, List.length_append, List.length_singleton] at hlt
    simp only [call, deref, setResolvedModule_heap] at hc
    simp only [call, setResolvedModule_dependencyMap]
    rcases Nat.lt_succ_iff_lt_or_eq.1 hlt with hlt' | heq
    · rw [deref_append_lt _ _ _ hlt'] at hc
      have hd := h c d hc
      have hne : d ≠ d₀ := by
        intro hdd
        rw [hdd, hfresh o d₀ m rfl] at hd
        cases hd
      rw [mapGet_mapSet_ne _ _ hne]
      exact hd
    · subst heq
      rw [deref_append_length] at hc
      simp only [ModuleGraphConnection.new, Option.some.injEq] at hc
      rw [← hc, mapGet_mapSet_self]
  | updateModule d₀ m =>
    intro c d hc
    simp only [call, updateModule_dependency] at hc
    simp only [call, updateModule_dependencyMap]
    exact h c d hc
  | addExtraReason m e =>
    intro c d hc
    have hlt := deref_dependency_lt _ c d hc
    simp only [call, addExtraReason_heap, List.length_append, List.length_singleton] at hlt
    simp only [call, deref, addExtraReason_heap] at hc
    simp only [call, addExtraReason_dependencyMap]
    rcases Nat.lt_succ_iff_lt_or_eq.1 hlt with hlt' | heq
    · rw [deref_append_lt _ _ _ hlt'] at hc
      exact h c d hc
    · subst heq
      rw [deref_append_length] at hc
      simp [ModuleGraphConnection.new] at hc
  | getResolvedModule d₀ => exact h
  | getModule d₀ => exact h
  | getReasons m =>
    intro c d hc
    have hderef : (g.call (.getReasons m)).1.deref c = g.deref c :=
      deref_eq_of_heap (getModuleSet_heap g m) c
    rw [hderef] at hc
    simp only [call, getReasons, getModuleSet_dependencyMap]
    exact h c d hc
  | getMeta t =>
    intro c d hc
    have hderef : (g.call (.getMeta t)).1.deref c = g.deref c :=
      deref_eq_of_heap (getMeta_graph g t).1 c
    rw [hderef] at hc
    simp only [call, (getMeta_graph g t).2.1]
    exact h c d hc

theorem owner_callAll (ks : List Call) (g : ModuleGraph)
    (hfresh : g.freshReferences ks = true)
    (h : ∀ c d, (g.deref c).dependency = some d → mapGet g._dependencyMap d = some c) :
    ∀ c d, ((g.callAll ks).deref c).dependency = some d →
      mapGet (g.callAll ks)._dependencyMap d = some c := by
  induction ks generalizing g with
  | nil => exact h
  | cons k ks ih =>
    cases k with
    | setResolvedModule o d₀ m =>
      simp only [freshReferences, Bool.and_eq_true, Option.isNone_iff_eq_none] at hfresh
      apply ih _ hfresh.2
      apply owner_call g _ _ h
      intro o' d' m' hk
      cases hk
      exact hfresh.1
    | updateModule d₀ m =>
      exact ih _ hfresh (owner_call g _ (fun _ _ _ hk => by cases hk) h)
    | addExtraReason m e =>
      exact ih _ hfresh (owner_call g _ (fun _ _ _ hk => by cases hk) h)
    | getResolvedModule d₀ =>
      exact ih _ hfresh (owner_call g _ (fun _ _ _ hk => by cases hk) h)
    | getModule d₀ =>
      exact ih _ hfresh (owner_call g _ (fun _ _ _ hk => by cases hk) h)
    | getReasons m =>
      exact ih _ hfresh (owner_call g _ (fun _ _ _ hk => by cases hk) h)
    | getMeta t =>
      exact ih _ hfresh (owner_call g _ (fun _ _ _ hk => by cases hk) h)

end ModuleGraph

open ModuleGraph

/-- C13, as the code behaves: in a graph reached from a fresh one by any
sequence of calls (returning or throwing) in which `setResolvedModule` is
never called for a reference that has a connection at that time, two
connections with the same `dependency` `d`, held by the index or not, are
the same connection, and it is the one the forward map holds under `d`. -/
theorem C13_one_connection_per_fresh_reference (ks : List Call) (d : Dependency)
    (c₁ c₂ : ConnRef) (hfresh : ModuleGraph.new.freshReferences ks = true)
    (hd₁ : ((ModuleGraph.new.callAll ks).deref c₁).dependency = some d)
    (hd₂ : ((ModuleGraph.new.callAll ks).deref c₂).dependency = some d) :
    c₁ = c₂ ∧ mapGet (ModuleGraph.new.callAll ks)._dependencyMap d = some c₁ := by
  have hown := owner_callAll ks ModuleGraph.new hfresh (fun c d hc => by
    simp [deref, ModuleGraph.new, ModuleGraphConnection.new] at hc)
  have e₁ := hown c₁ d hd₁
  have e₂ := hown c₂ d hd₂
  rw [e₁] at e₂
  exact ⟨Option.some.inj e₂, e₁⟩

/-- Witness of the amended C13: `setResolvedModule(0, 0, 1)`,
`setResolvedModule(0, 1, 1)`, then a throwing `updateModule(0, 2)`. -/
theorem C13_one_connection_per_fresh_reference_witness :
    ModuleGraph.new.freshReferences
      [.setResolvedModule 0 0 1, .setResolvedModule 0 1 1, .updateModule 0 2] = true ∧
    (ModuleGraph.new.callAll
      [.setResolvedModule 0 0 1, .setResolvedModule 0 1 1, .updateModule 0 2]).held 1 ∧
    mapGet (ModuleGraph.new.callAll
      [.setResolvedModule 0 0 1, .setResolvedModule 0 1 1, .updateModule 0 2])._dependencyMap 1
      = some 1 :=
  ⟨by decide, by decide,
    (C13_one_connection_per_fresh_reference
      [.setResolvedModule 0 0 1, .setResolvedModule 0 1 1, .updateModule 0 2] 1 1 1
      (by decide) (by decide) (by decide)).2⟩

/-- Counterexample to C13 as stated: after `setResolvedModule(0, 0, 1)` twice
the connections `0` and `1` are both held by the index (both are members of
the reverse set of module `1`), both have `dependency == 0`, and they are two
connections. -/
theorem C13_counterexample_two_connections_for_one_reference :
    (ModuleGraph.new.callAll [.setResolvedModule 0 0 1, .setResolvedModule 0 0 1]).held 0 ∧
    (ModuleGraph.new.callAll [.setResolvedModule 0 0 1, .setResolvedModule 0 0 1]).held 1 ∧
    ((ModuleGraph.new.callAll [.setResolvedModule 0 0 1, .setResolvedModule 0 0 1]).deref
      0).dependency = some 0 ∧
    ((ModuleGraph.new.callAll [.setResolvedModule 0 0 1, .setResolvedModule 0 0 1]).deref
      1).dependency = some 0 ∧
    ((ModuleGraph.new.callAll [.setResolvedModule 0 0 1, .setResolvedModule 0 0 1]).getReasons
      1).2 = [0, 1] ∧
    (0 : ConnRef) ≠ 1 := by
  decide

end ModuleGraphJs

namespace ModuleGraphJs

namespace ModuleGraph

/-! ## Counting reasons -/

theorem sum_length_mapSet (l : List (Module × List ConnRef)) (k : Module) (v v₀ : List ConnRef)
    (h : mapGet l k = some v₀) :
    ((mapSet l k v).map (fun e => e.2.length)).sum + v₀.length =
      (l.map (fun e => e.2.length)).sum + v.length := by
  induction l with
  | nil => simp [mapGet] at h
  | cons e rest ih =>
    obtain ⟨k', v'⟩ := e
    by_cases hk : k' = k
    · subst hk
      simp only [mapGet, if_true, Option.some.injEq] at h
      subst h
      simp only [mapSet, if_true, List.map_cons, List.sum_cons]
      omega
    · simp only [mapGet, hk, if_false] at h
      have := ih h
      simp only [mapSet, hk, if_false, List.map_cons, List.sum_cons]
      omega

theorem length_setDelete (s : List ConnRef) (c : ConnRef) (hnd : s.Nodup) (hc : c ∈ s) :
    (setDelete s c).length + 1 = s.length := by
  induction s with
  | nil => simp at hc
  | cons a rest ih =>
    have hnd' := List.nodup_cons.1 hnd
    by_cases ha : a = c
    · subst ha
      have hfil : setDelete rest a = rest := by
        unfold setDelete
        apply List.filter_eq_self.2
        intro x hx
        simp only [ne_eq, decide_not, Bool.not_eq_true', decide_eq_false_iff_not]
        intro hxa
        exact hnd'.1 (hxa ▸ hx)
      have : setDelete (a :: rest) a = setDelete rest a := by
        simp [setDelete]
      rw [this, hfil]
      simp
    · have hc' : c ∈ rest := by
        rcases List.mem_cons.1 hc with h | h
        · exact absurd h.symm ha
        · exact h
      have : setDelete (a :: rest) c = a :: setDelete rest c := by
        simp [setDelete, ha]
      rw [this]
      simp only [List.length_cons]
      have := ih hnd'.2 hc'
      omega

theorem length_setAdd_fresh (s : List ConnRef) (c : ConnRef) (h : c ∉ s) :
    (setAdd s c).length = s.length + 1 := by
  simp [setAdd, h]

theorem totalReasons_updateModule (g : ModuleGraph) (d : Dependency) (m : Module)
    (hwf : g.WF) (hP : g.P2) (hnd : g.NodupSets)
    (hr : (g.updateModule d m).2.isReturn = true) :
    (g.updateModule d m).1.totalReasons = g.totalReasons := by
  obtain ⟨c, hd, hm | ⟨hne, oldSet, newSet, hold, hnew⟩⟩ := updateModule_returns_cases g d m hr
  · have : g.updateModule d m = (g, .returns ()) := by simp [updateModule, hd, hm]
    rw [this]
  · have hc : c < g.heap.length := hwf.1 _ (mapGet_mem _ _ _ hd)
    have hin : c ∈ oldSet := by
      have := (hP c hc (g.deref c).module).2 rfl
      rw [getReasons_snd] at this
      simpa [reasons, hold] using this
    have hnotin : c ∉ newSet := by
      intro h
      have h' : c ∈ (g.getReasons m).2 := by
        rw [getReasons_snd]
        simpa [reasons, hnew] using h
      exact hne ((hP c hc m).1 h')
    have hnew' : mapGet (mapSet g._moduleMap (g.deref c).module (setDelete oldSet c)) m
        = some newSet := by
      rw [mapGet_mapSet_ne _ _ (Ne.symm hne), hnew]
    rw [updateModule_move g d m c oldSet newSet hd hne hold hnew]
    have e1 := sum_length_mapSet g._moduleMap (g.deref c).module (setDelete oldSet c) oldSet hold
    have e2 := sum_length_mapSet _ m (setAdd newSet c) newSet hnew'
    have e3 := length_setDelete oldSet c (hnd _ (mapGet_mem _ _ _ hold)) hin
    have e4 := length_setAdd_fresh newSet c hnotin
    simp only [totalReasons]
    omega

end ModuleGraph

open ModuleGraph

/-- Each new connection is a new object: on a graph whose references are
allocated, `addExtraReason(m, e)` makes `getReasons(m)` longer by exactly
one, also when an extra reason with the same explanation is already there,
and so does `setResolvedModule(o, d, m)`. -/
theorem reasons_grow_by_one (g : ModuleGraph) (o : Module) (d : Dependency)
    (m : Module) (e : String) (hwf : g.WF) :
    ((g.addExtraReason m e).1.getReasons m).2.length = (g.getReasons m).2.length + 1 ∧
    (((g.addExtraReason m e).1.addExtraReason m e).1.getReasons m).2.length
      = (g.getReasons m).2.length + 2 ∧
    ((g.setResolvedModule o d m).1.getReasons m).2.length = (g.getReasons m).2.length + 1 := by
  have hfresh : ∀ g' : ModuleGraph, g'.WF → g'.heap.length ∉ g'.reasons m :=
    fun g' h' h => Nat.lt_irrefl _ (reasons_lt_of_WF h' m _ h)
  have hadd : ∀ g' : ModuleGraph, g'.WF →
      ((g'.addExtraReason m e).1.getReasons m).2.length = (g'.getReasons m).2.length + 1 := by
    intro g' h'
    rw [getReasons_snd, getReasons_snd, addExtraReason_reasons, if_pos rfl]
    exact length_setAdd_fresh _ _ (hfresh g' h')
  refine ⟨hadd g hwf, ?_, ?_⟩
  · rw [hadd _ (WF_addExtraReason g m e hwf), hadd g hwf]
  · rw [getReasons_snd, getReasons_snd, setResolvedModule_reasons, if_pos rfl]
    exact length_setAdd_fresh _ _ (hfresh g hwf)

/-- On a graph that satisfies R1, with allocated references and reverse sets
that list no connection twice, an `updateModule` that returns leaves the
number of members of all reverse sets together unchanged. -/
theorem totalReasons_kept_under_R1 (g : ModuleGraph) (d : Dependency) (m : Module)
    (hwf : g.WF) (hR1 : g.R1) (hnd : g.NodupSets)
    (hr : (g.updateModule d m).2.isReturn = true) :
    (g.updateModule d m).1.totalReasons = g.totalReasons :=
  totalReasons_updateModule g d m hwf ((R1_iff_P2 g).1 hR1) hnd hr

/-- C19 at a failing input: the graph reached by `setResolvedModule(0, 0, 1)`,
`updateModule(0, 2)` (which throws, module `2` having no reverse set),
`getReasons(2)` and `getReasons(3)` has allocated references and reverse sets
without repetition, but not R1: connection `0` has current target `2` and is
in no reverse set. On it `updateModule(0, 3)` returns, and the number of
members of all reverse sets together goes from 0 to 1 instead of staying the
same: `oldSet.delete` removes nothing and `newSet.add` adds the connection. -/
theorem C19_returning_updateModule_changes_total :
    (ModuleGraph.new.callAll
      [.setResolvedModule 0 0 1, .updateModule 0 2, .getReasons 2, .getReasons 3]).WF ∧
    (ModuleGraph.new.callAll
      [.setResolvedModule 0 0 1, .updateModule 0 2, .getReasons 2, .getReasons 3]).NodupSets ∧
    ¬ (ModuleGraph.new.callAll
      [.setResolvedModule 0 0 1, .updateModule 0 2, .getReasons 2, .getReasons 3]).R1 ∧
    (ModuleGraph.new.callAll
      [.setResolvedModule 0 0 1, .updateModule 0 2, .getReasons 2, .getReasons 3])._moduleMap
      = [(1, []), (2, []), (3, [])] ∧
    ((ModuleGraph.new.callAll
      [.setResolvedModule 0 0 1, .updateModule 0 2, .getReasons 2, .getReasons 3]).updateModule
      0 3).2 = .returns () ∧
    (ModuleGraph.new.callAll
      [.setResolvedModule 0 0 1, .updateModule 0 2, .getReasons 2, .getReasons 3]).totalReasons
      = 0 ∧
    ((ModuleGraph.new.callAll
      [.setResolvedModule 0 0 1, .updateModule 0 2, .getReasons 2, .getReasons 3]).updateModule
      0 3).1.totalReasons = 1 ∧
    ((ModuleGraph.new.callAll
      [.setResolvedModule 0 0 1, .updateModule 0 2, .getReasons 2, .getReasons 3]).updateModule
      0 3).1._moduleMap = [(1, []), (2, []), (3, [0])] := by
  decide

end ModuleGraphJs

namespace ModuleGraphJs

namespace ModuleGraph

/-! ## Properties of every graph the methods can produce

The hypotheses used above (`WF`, `TargetsAgree`, `NodupSets`, `MetaWF`) hold
in the fresh graph and are kept by every call, returning or throwing. -/

theorem updateModule_half (g : ModuleGraph) (d : Dependency) (m : Module) (c : ConnRef)
    (oldSet : List ConnRef) (hd : mapGet g._dependencyMap d = some c)
    (hne : (g.deref c).module ≠ m)
    (hold : mapGet g._moduleMap (g.deref c).module = some oldSet)
    (hnew : mapGet g._moduleMap m = none) :
    g.updateModule d m =
      ({ g with
          heap := g.heap.set c { g.deref c with module := m }
          _moduleMap := mapSet g._moduleMap (g.deref c).module (setDelete oldSet c) },
        .throws .typeError) := by
  have h2 : mapGet (mapSet g._moduleMap (g.deref c).module (setDelete oldSet c)) m = none := by
    rw [mapGet_mapSet_ne _ _ (Ne.symm hne), hnew]
  unfold updateModule
  rw [hd]
  simp only [hne, if_false, hold]
  rw [h2]
  rfl

theorem updateModule_shape (g : ModuleGraph) (d : Dependency) (m : Module) :
    (g.updateModule d m).1 = g ∨
    ∃ c oldSet, mapGet g._dependencyMap d = some c ∧ (g.deref c).module ≠ m ∧
      mapGet g._moduleMap (g.deref c).module = some oldSet ∧
      (mapGet g._moduleMap m = none ∨ ∃ newSet, mapGet g._moduleMap m = some newSet) := by
  cases hd : mapGet g._dependencyMap d with
  | none => left; simp [updateModule, hd]
  | some c =>
    by_cases hm : (g.deref c).module = m
    · left; simp [updateModule, hd, hm]
    · cases hold : mapGet g._moduleMap (g.deref c).module with
      | none => left; simp [updateModule, hd, hm, hold]
      | some oldSet =>
        right
        refine ⟨c, oldSet, rfl, hm, hold, ?_⟩
        cases hnew : mapGet g._moduleMap m with
        | none => exact Or.inl rfl
        | some newSet => exact Or.inr ⟨newSet, rfl⟩

theorem updateModule_half_reasons (g : ModuleGraph) (d : Dependency) (m : Module) (c : ConnRef)
    (oldSet : List ConnRef) (hd : mapGet g._dependencyMap d = some c)
    (hne : (g.deref c).module ≠ m)
    (hold : mapGet g._moduleMap (g.deref c).module = some oldSet)
    (hnew : mapGet g._moduleMap m = none) (x : Module) :
    (g.updateModule d m).1.reasons x =
      if x = (g.deref c).module then setDelete (g.reasons x) c else g.reasons x := by
  rw [updateModule_half g d m c oldSet hd hne hold hnew]
  simp only [reasons]
  by_cases hx : x = (g.deref c).module
  · subst hx
    simp [mapGet_mapSet_self, hold]
  · simp only [hx, if_false, mapGet_mapSet_ne _ _ hx]

theorem updateModule_half_deref (g : ModuleGraph) (d : Dependency) (m : Module) (c : ConnRef)
    (oldSet : List ConnRef) (hd : mapGet g._dependencyMap d = some c)
    (hne : (g.deref c).module ≠ m)
    (hold : mapGet g._moduleMap (g.deref c).module = some oldSet)
    (hnew : mapGet g._moduleMap m = none) (x : ConnRef) (hx : x ≠ c) :
    (g.updateModule d m).1.deref x = g.deref x := by
  rw [updateModule_half g d m c oldSet hd hne hold hnew]
  simp [deref, List.getD_eq_getElem?_getD, List.getElem?_set, Ne.symm hx]

theorem updateModule_heap_length (g : ModuleGraph) (d : Dependency) (m : Module) :
    (g.updateModule d m).1.heap.length = g.heap.length := by
  rcases updateModule_shape g d m with h | ⟨c, oldSet, hd, hne, hold, hnew | ⟨newSet, hnew⟩⟩
  · rw [h]
  · rw [updateModule_half g d m c oldSet hd hne hold hnew]
    simp
  · rw [updateModule_move g d m c oldSet newSet hd hne hold hnew]
    simp

theorem WF_updateModule_any (g : ModuleGraph) (d : Dependency) (m : Module) (hwf : g.WF) :
    (g.updateModule d m).1.WF := by
  rcases updateModule_shape g d m with h | ⟨c, oldSet, hd, hne, hold, hnew | ⟨newSet, hnew⟩⟩
  · rw [h]; exact hwf
  · rw [updateModule_half g d m c oldSet hd hne hold hnew]
    constructor
    · intro e he
      simp only [List.length_set]
      exact hwf.1 e he
    · intro e he x hx
      simp only [List.length_set]
      rcases mem_mapSet _ _ _ _ he with h | h
      · rw [h] at hx
        exact hwf.2 _ (mapGet_mem _ _ _ hold) x ((mem_setDelete _ _ _).1 hx).1
      · exact hwf.2 e h x hx
  · apply WF_updateModule g d m hwf
    rw [updateModule_move g d m c oldSet newSet hd hne hold hnew]
    rfl

theorem WF_call (g : ModuleGraph) (k : Call) (hwf : g.WF) : (g.call k).1.WF := by
  cases k with
  | setResolvedModule o d m => exact WF_setResolvedModule g o d m hwf
  | updateModule d m => exact WF_updateModule_any g d m hwf
  | addExtraReason m e => exact WF_addExtraReason g m e hwf
  | getResolvedModule d => exact hwf
  | getModule d => exact hwf
  | getReasons m => exact WF_getReasons g m hwf
  | getMeta t =>
    obtain ⟨hh, hd, hm⟩ := getMeta_graph g t
    unfold WF
    simp only [call, hh, hd, hm]
    exact hwf

end ModuleGraph
end ModuleGraphJs

namespace ModuleGraphJs

namespace ModuleGraph

theorem targetsAgree_iff (g : ModuleGraph) :
    g.TargetsAgree ↔ ∀ m c, c ∈ g.reasons m → c < g.heap.length ∧ (g.deref c).module = m := by
  constructor
  · intro h m c hc
    exact h m (mem_reasons_key hc) c hc
  · intro h m _ c hc
    exact h m c hc

theorem TargetsAgree_append (g g' : ModuleGraph) (m : Module) (x : ModuleGraphConnection)
    (hx : x.module = m) (hheap : g'.heap = g.heap ++ [x])
    (hre : ∀ y, g'.reasons y = if y = m then setAdd (g.reasons m) g.heap.length else g.reasons y)
    (h : g.TargetsAgree) : g'.TargetsAgree := by
  rw [targetsAgree_iff] at h ⊢
  intro y c hc
  rw [hre] at hc
  have hlen : g'.heap.length = g.heap.length + 1 := by simp [hheap]
  have hold : c ∈ g.reasons y → c < g'.heap.length ∧ (g'.deref c).module = y := by
    intro hc'
    obtain ⟨h1, h2⟩ := h y c hc'
    refine ⟨by rw [hlen]; exact Nat.lt_succ_of_lt h1, ?_⟩
    simp only [deref, hheap, deref_append_lt _ _ _ h1]
    exact h2
  by_cases hy : y = m
  · subst hy
    simp only [if_true, mem_setAdd] at hc
    rcases hc with hc | hc
    · exact hold hc
    · subst hc
      refine ⟨by rw [hlen]; exact Nat.lt_succ_self _, ?_⟩
      simp only [deref, hheap, deref_append_length]
      exact hx
  · simp only [hy, if_false] at hc
    exact hold hc

theorem TargetsAgree_updateModule (g : ModuleGraph) (d : Dependency) (m : Module) (hwf : g.WF)
    (h : g.TargetsAgree) : (g.updateModule d m).1.TargetsAgree := by
  rcases updateModule_shape g d m with hs | ⟨c, oldSet, hd, hne, hold, hnew | ⟨newSet, hnew⟩⟩
  · rw [hs]; exact h
  · rw [targetsAgree_iff] at h ⊢
    intro x y hy
    rw [updateModule_heap_length]
    rw [updateModule_half_reasons g d m c oldSet hd hne hold hnew] at hy
    have hyc : y ≠ c ∧ y ∈ g.reasons x := by
      by_cases hx : x = (g.deref c).module
      · simp only [hx, if_true, mem_setDelete] at hy
        exact ⟨hy.2, hx ▸ hy.1⟩
      · simp only [hx, if_false] at hy
        refine ⟨?_, hy⟩
        intro hyc
        exact hx (hyc ▸ (h x y hy).2).symm
    rw [updateModule_half_deref g d m c oldSet hd hne hold hnew y hyc.1]
    exact h x y hyc.2
  · have hc : c < g.heap.length := hwf.1 _ (mapGet_mem _ _ _ hd)
    rw [targetsAgree_iff] at h ⊢
    intro x y hy
    rw [updateModule_heap_length]
    rw [updateModule_move_reasons g d m c oldSet newSet hd hne hold hnew] at hy
    rw [updateModule_move_deref g d m c oldSet newSet hd hne hold hnew hc]
    by_cases hx : x = m
    · subst hx
      simp only [if_true, mem_setAdd] at hy
      rcases hy with hy | hy
      · have hyc : y ≠ c := fun e => hne (e ▸ (h x y hy).2)
        simp only [hyc, if_false]
        exact h x y hy
      · subst hy
        simp only [if_true]
        exact ⟨hc, trivial⟩
    · simp only [hx, if_false] at hy
      have hyc : y ≠ c ∧ y ∈ g.reasons x := by
        by_cases hx' : x = (g.deref c).module
        · simp only [hx', if_true, mem_setDelete] at hy
          exact ⟨hy.2, hx' ▸ hy.1⟩
        · simp only [hx', if_false] at hy
          exact ⟨fun e => hx' (e ▸ (h x y hy).2).symm, hy⟩
      simp only [hyc.1, if_false]
      exact h x y hyc.2

theorem TargetsAgree_of_same (g g' : ModuleGraph) (hheap : g'.heap = g.heap)
    (hre : ∀ y, g'.reasons y = g.reasons y) (h : g.TargetsAgree) : g'.TargetsAgree := by
  rw [targetsAgree_iff] at h ⊢
  intro y c hc
  rw [hre] at hc
  rw [hheap, deref_eq_of_heap hheap]
  exact h y c hc

theorem TargetsAgree_call (g : ModuleGraph) (k : Call) (hwf : g.WF) (h : g.TargetsAgree) :
    (g.call k).1.TargetsAgree := by
  cases k with
  | setResolvedModule o d m =>
    exact TargetsAgree_append g _ m _ rfl (setResolvedModule_heap g o d m)
      (setResolvedModule_reasons g o d m) h
  | updateModule d m => exact TargetsAgree_updateModule g d m hwf h
  | addExtraReason m e =>
    exact TargetsAgree_append g _ m _ rfl (addExtraReason_heap g m e)
      (addExtraReason_reasons g m e) h
  | getResolvedModule d => exact h
  | getModule d => exact h
  | getReasons m =>
    exact TargetsAgree_of_same g _ (getModuleSet_heap g m) (getReasons_reasons g m) h
  | getMeta t =>
    exact TargetsAgree_of_same g _ (getMeta_graph g t).1
      (fun y => by simp only [call, reasons, (getMeta_graph g t).2.2]) h

end ModuleGraph
end ModuleGraphJs

namespace ModuleGraphJs

namespace ModuleGraph

theorem nodup_setAdd (s : List ConnRef) (c : ConnRef) (h : s.Nodup) : (setAdd s c).Nodup := by
  unfold setAdd
  by_cases hc : c ∈ s
  · simp [hc, h]
  · simp only [hc, if_false]
    exact List.Nodup.append h (List.nodup_singleton c) (by simpa using hc)

theorem nodup_setDelete (s : List ConnRef) (c : ConnRef) (h : s.Nodup) :
    (setDelete s c).Nodup :=
  List.Nodup.filter _ h

theorem nodup_reasons (g : ModuleGraph) (m : Module) (h : g.NodupSets) : (g.reasons m).Nodup := by
  unfold reasons
  cases hm : mapGet g._moduleMap m with
  | none => exact List.nodup_nil
  | some s => exact h _ (mapGet_mem _ _ _ hm)

theorem NodupSets_getModuleSet (g : ModuleGraph) (m : Module) (h : g.NodupSets) :
    (g._getModuleSet m).1.NodupSets := by
  intro e he
  rcases mem_getModuleSet_moduleMap g m e he with h' | h'
  · rw [h']; exact List.nodup_nil
  · exact h e h'

theorem NodupSets_call (g : ModuleGraph) (k : Call) (h : g.NodupSets) :
    (g.call k).1.NodupSets := by
  cases k with
  | setResolvedModule o d m =>
    intro e he
    simp only [call, setResolvedModule] at he
    rcases mem_mapSet _ _ _ _ he with h' | h'
    · rw [h', getModuleSet_snd]
      exact nodup_setAdd _ _ (nodup_reasons _ m h)
    · rcases mem_getModuleSet_moduleMap _ _ _ h' with h'' | h''
      · rw [h'']; exact List.nodup_nil
      · exact h e h''
  | updateModule d m =>
    rcases updateModule_shape g d m with hs | ⟨c, oldSet, hd, hne, hold, hnew | ⟨newSet, hnew⟩⟩
    · simp only [call, hs]; exact h
    · intro e he
      simp only [call, updateModule_half g d m c oldSet hd hne hold hnew] at he
      rcases mem_mapSet _ _ _ _ he with h' | h'
      · rw [h']; exact nodup_setDelete _ _ (h _ (mapGet_mem _ _ _ hold))
      · exact h e h'
    · intro e he
      simp only [call, updateModule_move g d m c oldSet newSet hd hne hold hnew] at he
      rcases mem_mapSet _ _ _ _ he with h' | h'
      · rw [h']; exact nodup_setAdd _ _ (h _ (mapGet_mem _ _ _ hnew))
      · rcases mem_mapSet _ _ _ _ h' with h'' | h''
        · rw [h'']; exact nodup_setDelete _ _ (h _ (mapGet_mem _ _ _ hold))
        · exact h e h''
  | addExtraReason m x =>
    intro e he
    simp only [call, addExtraReason] at he
    rcases mem_mapSet _ _ _ _ he with h' | h'
    · rw [h', getModuleSet_snd]
      exact nodup_setAdd _ _ (nodup_reasons _ m h)
    · rcases mem_getModuleSet_moduleMap _ _ _ h' with h'' | h''
      · rw [h'']; exact List.nodup_nil
      · exact h e h''
  | getResolvedModule d => exact h
  | getModule d => exact h
  | getReasons m => exact NodupSets_getModuleSet g m h
  | getMeta t =>
    intro e he
    simp only [call, (getMeta_graph g t).2.2] at he
    exact h e he

theorem MetaWF_call (g : ModuleGraph) (k : Call) (h : g.MetaWF) : (g.call k).1.MetaWF := by
  cases k with
  | setResolvedModule o d m =>
    unfold MetaWF
    simp only [call, (setResolvedModule_meta g o d m).1, (setResolvedModule_meta g o d m).2]
    exact h
  | updateModule d m =>
    unfold MetaWF
    simp only [call, (updateModule_meta g d m).1, (updateModule_meta g d m).2]
    exact h
  | addExtraReason m e =>
    unfold MetaWF
    simp only [call, (addExtraReason_meta g m e).1, (addExtraReason_meta g m e).2]
    exact h
  | getResolvedModule d => exact h
  | getModule d => exact h
  | getReasons m =>
    unfold MetaWF
    simp only [call, (getReasons_meta g m).1, (getReasons_meta g m).2]
    exact h
  | getMeta t => exact MetaWF_getMeta g t h

theorem MetaWF_metaWrite (g : ModuleGraph) (r : MetaRef) (f : String) (v : Nat) (h : g.MetaWF) :
    (g.metaWrite r f v).MetaWF := by
  unfold MetaWF metaWrite
  simp only [List.length_set]
  exact h

/-- Every graph reached from a fresh one by calls of the methods, whether
they return or throw, has allocated references, reverse sets whose members
target the module of the set and occur once, and one allocated metadata
object per key. -/
theorem invariants_of_every_graph (ks : List Call) (g : ModuleGraph) (h1 : g.WF)
    (h2 : g.TargetsAgree) (h3 : g.NodupSets) (h4 : g.MetaWF) :
    (g.callAll ks).WF ∧ (g.callAll ks).TargetsAgree ∧ (g.callAll ks).NodupSets ∧
    (g.callAll ks).MetaWF := by
  induction ks generalizing g with
  | nil => exact ⟨h1, h2, h3, h4⟩
  | cons k ks ih =>
    exact ih (g.call k).1 (WF_call g k h1) (TargetsAgree_call g k h1 h2) (NodupSets_call g k h3)
      (MetaWF_call g k h4)

theorem invariants_from_new (ks : List Call) :
    (ModuleGraph.new.callAll ks).WF ∧ (ModuleGraph.new.callAll ks).TargetsAgree ∧
    (ModuleGraph.new.callAll ks).NodupSets ∧ (ModuleGraph.new.callAll ks).MetaWF :=
  invariants_of_every_graph ks ModuleGraph.new (by decide) (by decide) (by decide) (by decide)

end ModuleGraph
end ModuleGraphJs
